import Mathlib

/-!
# Verification of the interferometric phase-map processing pipeline

A shallow embedding of `prysm/interferogram.py`: the `Interferogram`
aggregate (phase grid with possibly-invalid samples, coordinate axes,
scale metadata) and its operations (`crop`, `remove_piston`,
`remove_tiptilt`, `remove_piston_tiptilt`, `bandreject`,
`dropout_percentage`), together with the free functions `fit_plane` and
`bandreject_filter`.

Modelling conventions:
* A phase sample is `Option ℝ`: `none` models a non-finite float
  (NaN/inf), `some v` a finite value.  Arithmetic on samples propagates
  `none`, matching IEEE non-finite propagation at the level of
  finite/non-finite distinctions (the only level the code inspects).
* A 2D numpy array is a rectangular `List (List _)`; rectangularity is
  carried as a hypothesis where a numpy array shape argument matters.
* Python functions that can raise are modelled in `Except String`;
  functions with no raising path are total.
* The 2D FFT, its inverse and the fftshift/ifftshift index rolls are
  modelled from their documented numpy semantics (centred discrete
  Fourier transform with explicit exponential sums over `ℂ`).
-/

open Finset

/-- A single sample: `none` models a non-finite (invalid) float. -/
abbrev Val := Option ℝ

/-- `np.isfinite` on one sample. -/
def isfiniteV (v : Val) : Bool := v.isSome

/-- A 2D array of samples. -/
abbrev Grid := List (List Val)

/-- Number of rows (`array.shape[0]`). -/
def numRows (g : Grid) : ℕ := g.length

/-- Number of columns (`array.shape[1]`, the common row length). -/
def numCols (g : Grid) : ℕ := (g.headD []).length

/-- The grid is rectangular (always true of a numpy 2D array). -/
def IsRect (g : Grid) : Prop := ∀ r ∈ g, r.length = numCols g

/-- Total number of elements (`array.size`). -/
def gridSize (g : Grid) : ℕ := (g.flatten).length

/-- Element read, `none` out of bounds (reads in the model stay in bounds). -/
def entry (g : Grid) (i j : ℕ) : Val := (g.getD i []).getD j none

/-- Count of non-finite samples (`np.count_nonzero(~np.isfinite(a))`). -/
def countNonFinite (g : Grid) : ℕ := (g.flatten.filter (fun v => !isfiniteV v)).length

/-- Every sample of the grid is finite. -/
def AllFinite (g : Grid) : Prop := ∀ v ∈ g.flatten, isfiniteV v = true

/-- Every sample of the grid is non-finite. -/
def AllInvalid (g : Grid) : Prop := ∀ v ∈ g.flatten, v = none

/-- `ndarray.argmax()` on a 1D boolean array: index of the first `true`,
`0` when every entry is `false`. -/
def argmaxB (l : List Bool) : ℕ :=
  if l.any (fun b => b) then l.findIdx (fun b => b) else 0

/-- Python slice `a[l:-r]` (as used by `Interferogram.crop`): for `r > 0`
this keeps indices `l, …, len-r-1`; for `r = 0` the slice is `a[l:0]`,
which is empty. -/
def pySlice {α : Type} (l r : ℕ) (xs : List α) : List α :=
  if r = 0 then [] else (xs.drop l).take (xs.length - r - l)

/-- `Interferogram.crop`, lines 55-63: find the first/last rows and
columns holding a finite sample and slice `phase[left:-right, top:-bottom]`. -/
def cropGrid (g : Grid) : Grid :=
  let nans := g.map (List.map isfiniteV)
  let nancols := (nans.transpose).map (List.any · (fun b => b))
  let nanrows := nans.map (List.any · (fun b => b))
  let left := argmaxB nanrows
  let right := argmaxB nanrows.reverse
  let top := argmaxB nancols
  let bottom := argmaxB nancols.reverse
  (pySlice left right g).map (pySlice top bottom)

/-- Subtraction of samples; a non-finite operand yields non-finite. -/
def subV (a b : Val) : Val := a.bind (fun x => b.map (fun y => x - y))

/-- Subtract a (finite) real from every sample. -/
def subGridReal (g : Grid) (p : List (List ℝ)) : Grid :=
  List.zipWith (fun row prow => List.zipWith (fun v r => v.map (fun x => x - r)) row prow) g p

/-- The finite samples of the grid, in row-major order (`a[np.isfinite(a)]`). -/
def finiteVals (g : Grid) : List ℝ := g.flatten.filterMap id

/-- `ndarray.mean()` as a sample: the mean of an empty selection is NaN
(numpy emits a warning, not an error), modelled as `none`. -/
noncomputable def meanVal (xs : List ℝ) : Val :=
  if xs.length = 0 then none else some (xs.sum / xs.length)

/-- `Interferogram.scale_map`: the unit-to-factor dictionary. -/
def scale_map : List (String × ℝ) := [("um", 1e6), ("mm", 1e3)]

/-- Python `scale_map[key]`: a dictionary lookup; `none` models the
`KeyError` raised for an unrecognized key. -/
def scaleMapLookup (s : String) : Option ℝ := scale_map.lookup s

/-- `np.arange(n)` as real coordinates. -/
def arange (n : ℕ) : List ℝ := List.map (fun (k : ℕ) => (k : ℝ)) (List.range n)

/-- The `Interferogram` aggregate (`meta` and the class-level label table
are opaque pass-through data and are not modelled).  `sample_spacing` is
only ever assigned in the physical-coordinates branch of `__init__`; the
unset attribute of synthetic mode is modelled as `none`. -/
structure Interferogram where
  phase : Grid
  intensity : Option Grid
  x : List ℝ
  y : List ℝ
  scale : String
  _realxy : Bool
  sample_spacing : Option ℝ

/-- `Interferogram.__init__`, lines 24-37.  The `x is None` test selects
synthetic pixel coordinates; otherwise x and y are taken as given (the
source comment reads "assume x, y given together", modelled by passing
the pair together) and `sample_spacing = x[1] - x[0]` is derived, an
`IndexError` being raised when `x` has fewer than two entries.  No
validation of `scale` is performed. -/
def Interferogram.init (phase : Grid) (intensity : Option Grid)
    (xy : Option (List ℝ × List ℝ)) (scale : String) : Except String Interferogram :=
  match xy with
  | none =>
      .ok { phase := phase, intensity := intensity,
            x := arange (numCols phase), y := arange (numRows phase),
            scale := scale, _realxy := false, sample_spacing := none }
  | some (xs, ys) =>
      match xs.get? 1, xs.get? 0 with
      | some x1, some x0 =>
          .ok { phase := phase, intensity := intensity, x := xs, y := ys,
                scale := scale, _realxy := true, sample_spacing := some (x1 - x0) }
      | _, _ => .error "IndexError: index 1 is out of bounds for axis 0"

/-- `Interferogram.dropout_percentage`, lines 51-53. -/
noncomputable def Interferogram.dropout_percentage (pm : Interferogram) : ℝ :=
  (countNonFinite pm.phase : ℝ) / (gridSize pm.phase : ℝ) * 100

/-- `Interferogram.crop`, lines 55-63 (mutates `phase` only). -/
def Interferogram.crop (pm : Interferogram) : Interferogram :=
  { pm with phase := cropGrid pm.phase }

/-- `Interferogram.remove_piston`, lines 71-74. -/
noncomputable def Interferogram.remove_piston (pm : Interferogram) : Interferogram :=
  { pm with phase := pm.phase.map (List.map (fun v => subV v (meanVal (finiteVals pm.phase)))) }

/-- The finite design samples of `fit_plane`: for every grid position
`(i, j)` with `z[i][j]` finite, the triple `(xx[i][j], yy[i][j], z[i][j])
= (x[j], y[i], z[i][j])` — `np.meshgrid` followed by boolean-mask
selection and flattening, in row-major order. -/
def planeSamples (x y : List ℝ) (z : Grid) : List (ℝ × ℝ × ℝ) :=
  ((List.zipWith (fun yi zrow => List.zipWith (fun xj v => (xj, yi, v)) x zrow) y z).flatten).filterMap
    (fun t => t.2.2.map (fun zv => (t.1, t.2.1, zv)))

/-- Modelled: `numpy.linalg.lstsq` applied to the three-column design
matrix `[x, y, 1]` of `fit_plane`.  numpy returns the minimum-norm
least-squares solution and raises nothing for rank-deficient systems;
modelled here by solving the normal equations by Cramer's rule when they
are nonsingular and returning the zero vector otherwise (which agrees
with numpy's minimum-norm solution in the degenerate no-sample case the
claims exercise). -/
noncomputable def lstsq3 (samples : List (ℝ × ℝ × ℝ)) : ℝ × ℝ × ℝ :=
  let sxx := (samples.map (fun t => t.1 * t.1)).sum
  let sxy := (samples.map (fun t => t.1 * t.2.1)).sum
  let sx := (samples.map (fun t => t.1)).sum
  let syy := (samples.map (fun t => t.2.1 * t.2.1)).sum
  let sy := (samples.map (fun t => t.2.1)).sum
  let n := (samples.length : ℝ)
  let bx := (samples.map (fun t => t.1 * t.2.2)).sum
  let by' := (samples.map (fun t => t.2.1 * t.2.2)).sum
  let bz := (samples.map (fun t => t.2.2)).sum
  let det := sxx * (syy * n - sy * sy) - sxy * (sxy * n - sy * sx) + sx * (sxy * sy - syy * sx)
  if det = 0 then (0, 0, 0)
  else
    (((bx * (syy * n - sy * sy) - sxy * (by' * n - sy * bz) + sx * (by' * sy - syy * bz)) / det),
     ((sxx * (by' * n - sy * bz) - bx * (sxy * n - sy * sx) + sx * (sxy * bz - by' * sx)) / det),
     ((sxx * (syy * bz - by' * sy) - sxy * (sxy * bz - by' * sx) + bx * (sxy * sy - syy * sx)) / det))

/-- `fit_plane`, lines 149-157: least-squares fit of `z = a·x + b·y + c`
over the finite samples, evaluated over the full mesh. -/
noncomputable def fit_plane (x y : List ℝ) (z : Grid) : List (List ℝ) :=
  let coefs := lstsq3 (planeSamples x y z)
  y.map (fun yi => x.map (fun xj => coefs.1 * xj + coefs.2.1 * yi + coefs.2.2))

/-- `Interferogram.remove_tiptilt`, lines 65-69. -/
noncomputable def Interferogram.remove_tiptilt (pm : Interferogram) : Interferogram :=
  { pm with phase := subGridReal pm.phase (fit_plane pm.x pm.y pm.phase) }

/-- `Interferogram.remove_piston_tiptilt`, lines 76-80. -/
noncomputable def Interferogram.remove_piston_tiptilt (pm : Interferogram) : Interferogram :=
  pm.remove_tiptilt.remove_piston

open Classical

/-- Modelled from the spec: `forward_ft_unit` lives in `prysm.fttools`,
which is not part of the sources under review; §4.1 specifies the
ordered spatial-frequency bins of a zero-frequency-centred discrete
Fourier transform of `n` samples at spacing `d`, i.e.
`np.fft.fftshift(np.fft.fftfreq(n, d))`: bin `k ↦ (k - ⌊n/2⌋)/(n·d)`. -/
noncomputable def forward_ft_unit (d : ℝ) (n : ℕ) : ℕ → ℝ :=
  fun k => ((k : ℝ) - ((n / 2 : ℕ) : ℝ)) / ((n : ℝ) * d)

/-- The primitive `n`-th root-of-unity power `exp(2πi·a/n)` used by the
discrete Fourier transform. -/
noncomputable def eN (n : ℕ) (a : ℤ) : ℂ :=
  Complex.exp (2 * (Real.pi : ℂ) * Complex.I * (a : ℂ) / (n : ℂ))

/-- Modelled: `np.fft.fft2` on an `sy × sx` array as a function of its
indices: `F[k,l] = Σ_{m,j} f[m,j]·exp(-2πi(km/sy + lj/sx))`. -/
noncomputable def fft2 (sy sx : ℕ) (f : ℕ → ℕ → ℂ) : ℕ → ℕ → ℂ :=
  fun k l => ∑ m ∈ range sy, ∑ j ∈ range sx,
    f m j * eN sy (-((k : ℤ) * (m : ℤ))) * eN sx (-((l : ℤ) * (j : ℤ)))

/-- Modelled: `np.fft.ifft2`, the inverse transform with `1/(sy·sx)`
normalization: `f[k,l] = (Σ_{m,j} F[m,j]·exp(2πi(km/sy + lj/sx)))/(sy·sx)`. -/
noncomputable def ifft2 (sy sx : ℕ) (f : ℕ → ℕ → ℂ) : ℕ → ℕ → ℂ :=
  fun k l => (∑ m ∈ range sy, ∑ j ∈ range sx,
    f m j * eN sy ((k : ℤ) * (m : ℤ)) * eN sx ((l : ℤ) * (j : ℤ))) / ((sy : ℂ) * (sx : ℂ))

/-- Modelled: `np.fft.ifftshift` on both axes: a cyclic roll reading
index `(p + n/2) % n` (undoes `fftshift`). -/
def ifftshift2 (sy sx : ℕ) (f : ℕ → ℕ → ℂ) : ℕ → ℕ → ℂ :=
  fun p q => f ((p + sy / 2) % sy) ((q + sx / 2) % sx)

/-- Modelled: `np.fft.fftshift` on both axes: the centring cyclic roll
reading index `(p + (n - n/2)) % n`. -/
def fftshift2 (sy sx : ℕ) (f : ℕ → ℕ → ℂ) : ℕ → ℕ → ℂ :=
  fun p q => f ((p + (sy - sy / 2)) % sy) ((q + (sx - sx / 2)) % sx)

/-- The frequency-domain mask of `bandreject_filter`, lines 165-171,
at the centred bin `(p, q)`: `highpass | lowpass` with
`fhigh = 1/wllow`, `flow = 1/wlhigh`, `uxx[p,q] = ux[q]`, `uyy[p,q] = uy[p]`. -/
noncomputable def maskP (sy sx : ℕ) (d wllow wlhigh : ℝ) (p q : ℕ) : Prop :=
  let fhigh := 1 / wllow
  let flow := 1 / wlhigh
  let ux := forward_ft_unit d sx q
  let uy := forward_ft_unit d sy p
  (((ux < -fhigh) ∨ (ux > fhigh)) ∨ ((uy < -fhigh) ∨ (uy > fhigh))) ∨
    (((ux > -flow) ∧ (ux < flow)) ∧ ((uy > -flow) ∧ (uy < flow)))

/-- `fourier[mask] = 0`: zero the masked bins. -/
noncomputable def maskZero (P : ℕ → ℕ → Prop) (f : ℕ → ℕ → ℂ) : ℕ → ℕ → ℂ :=
  fun p q => if P p q then 0 else f p q

/-- A grid as an index function with invalid samples replaced by zero
(`work = array.copy(); work[~isfinite(work)] = 0`, read as a complex
signal; out-of-range reads do not occur in the pipeline). -/
def toFun (g : Grid) : ℕ → ℕ → ℂ :=
  fun i j => (((entry g i j).getD 0 : ℝ) : ℂ)

/-- Collect an `sy × sx` real-valued index function back into a grid of
finite samples. -/
def ofFun (sy sx : ℕ) (f : ℕ → ℕ → ℝ) : Grid :=
  (List.range sy).map (fun i => (List.range sx).map (fun j => some (f i j)))

/-- The `fourier` local of `bandreject_filter`, line 176:
`fftshift(fft2(ifftshift(work)))`. -/
noncomputable def brFourier (sy sx : ℕ) (w : ℕ → ℕ → ℂ) : ℕ → ℕ → ℂ :=
  fftshift2 sy sx (fft2 sy sx (ifftshift2 sy sx w))

/-- The `out` local of `bandreject_filter`, lines 177-178: zero the
masked bins of `fourier`, then `fftshift(ifft2(ifftshift(...)))`. -/
noncomputable def brOut (sy sx : ℕ) (P : ℕ → ℕ → Prop) (w : ℕ → ℕ → ℂ) : ℕ → ℕ → ℂ :=
  fftshift2 sy sx (ifft2 sy sx (ifftshift2 sy sx (maskZero P (brFourier sy sx w))))

/-- `bandreject_filter`, lines 160-179: centred FFT, zero the masked
bins, inverse transform, take the real part. -/
noncomputable def bandreject_filter (array : Grid) (sample_spacing wllow wlhigh : ℝ) : Grid :=
  let sy := numRows array
  let sx := numCols array
  ofFun sy sx
    (fun i j => (brOut sy sx (maskP sy sx sample_spacing wllow wlhigh) (toFun array) i j).re)

/-- The band-reject mask in the spec's words (§4.3): reject a bin iff it
lies outside `±f_high` on either axis, or inside `±f_low` on both axes,
with `f_high = 1/wavelength_low` and `f_low = 1/wavelength_high`. -/
noncomputable def maskSpecP (sy sx : ℕ) (d wllow wlhigh : ℝ) (p q : ℕ) : Prop :=
  |forward_ft_unit d sx q| > 1 / wllow ∨ |forward_ft_unit d sy p| > 1 / wllow ∨
    (|forward_ft_unit d sx q| < 1 / wlhigh ∧ |forward_ft_unit d sy p| < 1 / wlhigh)

/-- The band-reject filter as the spec words it (§4.3): identical
transform chain, with the mask written as the per-axis `|·|` band of the
spec; compared against the source-translated `bandreject_filter`. -/
noncomputable def bandreject_spec (array : Grid) (sample_spacing wllow wlhigh : ℝ) : Grid :=
  let sy := numRows array
  let sx := numCols array
  ofFun sy sx
    (fun i j => (brOut sy sx (maskSpecP sy sx sample_spacing wllow wlhigh) (toFun array) i j).re)

/-- `new_phase[~np.isfinite(self.phase)] = np.nan`: restore the
original invalid positions in the filtered grid. -/
def setNaN (orig new : Grid) : Grid :=
  List.zipWith (fun orow nrow =>
    List.zipWith (fun o n => if isfiniteV o then n else none) orow nrow) orig new

/-- `Interferogram.bandreject`, lines 82-86.  Reading
`self.sample_spacing` raises `AttributeError` when the attribute was
never assigned (synthetic-coordinate construction). -/
noncomputable def Interferogram.bandreject (pm : Interferogram) (wllow wlhigh : ℝ) :
    Except String Interferogram :=
  match pm.sample_spacing with
  | none => .error "AttributeError: 'Interferogram' object has no attribute 'sample_spacing'"
  | some d =>
      .ok { pm with phase := setNaN pm.phase (bandreject_filter pm.phase d wllow wlhigh) }

instance decAllFinite (g : Grid) : Decidable (AllFinite g) :=
  inferInstanceAs (Decidable (∀ v ∈ g.flatten, isfiniteV v = true))

instance decEqNone (v : Val) : Decidable (v = none) :=
  decidable_of_iff (v.isNone = true) Option.isNone_iff_eq_none

instance decAllInvalid (g : Grid) : Decidable (AllInvalid g) :=
  inferInstanceAs (Decidable (∀ v ∈ g.flatten, v = none))

instance decIsRect (g : Grid) : Decidable (IsRect g) :=
  inferInstanceAs (Decidable (∀ r ∈ g, r.length = numCols g))

/-- The 1 × 2 physical-coordinate interferogram used to exercise
`bandreject` twice; its single invalid sample makes the second pass
re-filter a different zero-filled signal. -/
noncomputable def pmC7ce : Interferogram :=
  { phase := [[none, some 1]], intensity := none, x := [0, 1], y := [0],
    scale := "um", _realxy := true, sample_spacing := some 1 }

/-- An all-finite 1 × 1 physical-coordinate interferogram. -/
noncomputable def pmC7w : Interferogram :=
  { phase := [[some 0]], intensity := none, x := [0, 1], y := [0],
    scale := "um", _realxy := true, sample_spacing := some 1 }

/-- A 5 × 5 grid whose interior 3 × 3 block is finite and whose one-pixel
border is invalid on all four sides. -/
noncomputable def g5interior : Grid :=
  [[none, none, none, none, none],
   [none, some 1, some 2, some 3, none],
   [none, some 4, some 5, some 6, none],
   [none, some 7, some 8, some 9, none],
   [none, none, none, none, none]]

/-- A 5 × 5 grid whose finite 3 × 3 block extends to the last row and the
last column (no trailing invalid rows/columns). -/
noncomputable def g5touch : Grid :=
  [[none, none, none, none, none],
   [none, none, none, none, none],
   [none, none, some 1, some 2, some 3],
   [none, none, some 4, some 5, some 6],
   [none, none, some 7, some 8, some 9]]

/-- A 2 × 2 grid with no finite sample. -/
def g2inv : Grid := [[none, none], [none, none]]

/-- A 5 × 5-phase interferogram with matching 5-element axes. -/
noncomputable def pmC5ce : Interferogram :=
  { phase := g5interior, intensity := none, x := arange 5, y := arange 5,
    scale := "um", _realxy := false, sample_spacing := none }

/-- A 1 × 2 interferogram with one invalid sample. -/
noncomputable def pmC5w : Interferogram :=
  { phase := [[some 0, none]], intensity := none, x := arange 2, y := arange 1,
    scale := "um", _realxy := false, sample_spacing := none }

/-- A 1 × 1 physical-coordinate interferogram with an invalid sample. -/
noncomputable def pmC6w : Interferogram :=
  { phase := [[none]], intensity := none, x := [0, 1], y := [0],
    scale := "um", _realxy := true, sample_spacing := some 1 }

/-- A 1 × 1 interferogram with matching axes, used to instantiate the
coordinate invariant. -/
noncomputable def pmC4w : Interferogram :=
  { phase := [[some 0]], intensity := none, x := [0], y := [0],
    scale := "um", _realxy := false, sample_spacing := none }

/-- A 1 × 1 all-invalid interferogram. -/
noncomputable def pmC10w : Interferogram :=
  { phase := [[none]], intensity := none, x := [0], y := [0],
    scale := "um", _realxy := false, sample_spacing := none }

/-! ## Root-of-unity toolbox -/

lemma eN_zero (n : ℕ) : eN n 0 = 1 := by
  simp [eN]

lemma eN_add (n : ℕ) (a b : ℤ) : eN n (a + b) = eN n a * eN n b := by
  rw [eN, eN, eN, ← Complex.exp_add]
  congr 1
  push_cast
  ring

lemma eN_int_mul (n : ℕ) (t : ℤ) : eN n ((n : ℤ) * t) = 1 := by
  rcases Nat.eq_zero_or_pos n with h | h
  · subst h
    simp [eN]
  · have hn : (n : ℂ) ≠ 0 := Nat.cast_ne_zero.mpr (by omega)
    rw [eN]
    have harg : 2 * (Real.pi : ℂ) * Complex.I * (((n : ℤ) * t : ℤ) : ℂ) / (n : ℂ)
        = (t : ℂ) * (2 * (Real.pi : ℂ) * Complex.I) := by
      field_simp
      ring
    rw [harg]
    exact Complex.exp_int_mul_two_pi_mul_I t

lemma eN_shift (n : ℕ) (a t : ℤ) : eN n (a + (n : ℤ) * t) = eN n a := by
  rw [eN_add, eN_int_mul, mul_one]

lemma eN_conj (n : ℕ) (a : ℤ) : (starRingEnd ℂ) (eN n a) = eN n (-a) := by
  rw [eN, eN, ← Complex.exp_conj]
  congr 1
  simp only [map_div₀, map_mul, Complex.conj_I, map_ofNat, Complex.conj_ofReal, map_intCast,
    map_natCast]
  push_cast
  ring

lemma eN_pow (n : ℕ) (a : ℤ) (k : ℕ) : eN n a ^ k = eN n ((k : ℤ) * a) := by
  rw [eN, eN, ← Complex.exp_nat_mul]
  congr 1
  push_cast
  ring

lemma eN_sum (n : ℕ) (hn : n ≠ 0) (c : ℤ) :
    ∑ j ∈ range n, eN n ((j : ℤ) * c) = if (n : ℤ) ∣ c then (n : ℂ) else 0 := by
  split
  · next h =>
      obtain ⟨t, rfl⟩ := h
      have : ∀ j ∈ range n, eN n ((j : ℤ) * ((n : ℤ) * t)) = 1 := by
        intro j _
        have : (j : ℤ) * ((n : ℤ) * t) = 0 + (n : ℤ) * (j * t) := by ring
        rw [this, eN_shift, eN_zero]
      rw [Finset.sum_congr rfl this]
      simp
  · next h =>
      have hω : eN n c ≠ 1 := by
        intro hc
        rw [eN, Complex.exp_eq_one_iff] at hc
        obtain ⟨m, hm⟩ := hc
        have hn' : (n : ℂ) ≠ 0 := Nat.cast_ne_zero.mpr hn
        have hπ : (Real.pi : ℂ) ≠ 0 := by
          exact_mod_cast Complex.ofReal_ne_zero.mpr Real.pi_ne_zero
        have hI : Complex.I ≠ 0 := Complex.I_ne_zero
        have hc' : (c : ℂ) = (m : ℂ) * (n : ℂ) := by
          field_simp at hm
          have h2 : (2 : ℂ) ≠ 0 := two_ne_zero
          -- hm : 2 * π * I * c = m * (2 * π * I) * n  (up to arrangement)
          calc (c : ℂ) = 2 * (Real.pi : ℂ) * Complex.I * (c : ℂ) /
                (2 * (Real.pi : ℂ) * Complex.I) := by
                field_simp
            _ = (m : ℂ) * (n : ℂ) := by
                rw [hm]
                field_simp
                ring
        have hmn : c = m * n := by exact_mod_cast hc'
        exact h ⟨m, by rw [hmn]; ring⟩
      have hterm : ∀ j ∈ range n, eN n ((j : ℤ) * c) = eN n c ^ j := by
        intro j _
        rw [eN_pow]
      rw [Finset.sum_congr rfl hterm, geom_sum_eq hω]
      have hpow : eN n c ^ n = 1 := by
        rw [eN_pow]
        exact eN_int_mul n c
      rw [hpow]
      simp

/-! ## Discrete Fourier inversion -/

lemma dvd_sub_iff_eq {n : ℕ} (hn : n ≠ 0) (s : ℤ) (hs : s = 1 ∨ s = -1) (a b : ℕ)
    (ha : a < n) (hb : b < n) : (n : ℤ) ∣ s * ((a : ℤ) - b) ↔ a = b := by
  have h1 : (n : ℤ) ∣ s * ((a : ℤ) - b) ↔ (n : ℤ) ∣ ((a : ℤ) - b) := by
    rcases hs with rfl | rfl
    · rw [one_mul]
    · rw [neg_one_mul, dvd_neg]
  rw [h1]
  constructor
  · rintro ⟨t, ht⟩
    have hn0 : (0 : ℤ) < n := by exact_mod_cast Nat.pos_of_ne_zero hn
    have hb1 : -(n : ℤ) < (a : ℤ) - b := by omega
    have hb2 : (a : ℤ) - b < n := by omega
    have ht1 : t < 1 := by nlinarith
    have ht2 : -1 < t := by nlinarith
    have ht0 : t = 0 := by omega
    rw [ht0, mul_zero] at ht
    omega
  · rintro rfl
    simp

lemma dft_core (sy sx : ℕ) (hy : sy ≠ 0) (hx : sx ≠ 0) (f : ℕ → ℕ → ℂ)
    (k l : ℕ) (hk : k < sy) (hl : l < sx) (s : ℤ) (hs : s = 1 ∨ s = -1) :
    ∑ m ∈ range sy, ∑ j ∈ range sx,
      ((∑ p ∈ range sy, ∑ q ∈ range sx,
        f p q * eN sy (s * ((m : ℤ) * (p : ℤ))) * eN sx (s * ((j : ℤ) * (q : ℤ)))) *
        eN sy (-(s * ((k : ℤ) * (m : ℤ)))) * eN sx (-(s * ((l : ℤ) * (j : ℤ))))) =
      (sy : ℂ) * (sx : ℂ) * f k l := by
  calc ∑ m ∈ range sy, ∑ j ∈ range sx,
        ((∑ p ∈ range sy, ∑ q ∈ range sx,
          f p q * eN sy (s * ((m : ℤ) * (p : ℤ))) * eN sx (s * ((j : ℤ) * (q : ℤ)))) *
          eN sy (-(s * ((k : ℤ) * (m : ℤ)))) * eN sx (-(s * ((l : ℤ) * (j : ℤ)))))
      = ∑ m ∈ range sy, ∑ j ∈ range sx, ∑ p ∈ range sy, ∑ q ∈ range sx,
          f p q * eN sy ((m : ℤ) * (s * ((p : ℤ) - (k : ℤ)))) *
            eN sx ((j : ℤ) * (s * ((q : ℤ) - (l : ℤ)))) := by
        refine Finset.sum_congr rfl fun m _ => Finset.sum_congr rfl fun j _ => ?_
        rw [Finset.sum_mul, Finset.sum_mul]
        refine Finset.sum_congr rfl fun p _ => ?_
        rw [Finset.sum_mul, Finset.sum_mul]
        refine Finset.sum_congr rfl fun q _ => ?_
        have e1 : (m : ℤ) * (s * ((p : ℤ) - (k : ℤ)))
            = s * ((m : ℤ) * (p : ℤ)) + -(s * ((k : ℤ) * (m : ℤ))) := by ring
        have e2 : (j : ℤ) * (s * ((q : ℤ) - (l : ℤ)))
            = s * ((j : ℤ) * (q : ℤ)) + -(s * ((l : ℤ) * (j : ℤ))) := by ring
        rw [e1, e2, eN_add, eN_add]
        ring
    _ = ∑ p ∈ range sy, ∑ q ∈ range sx,
          f p q * (∑ m ∈ range sy, eN sy ((m : ℤ) * (s * ((p : ℤ) - (k : ℤ))))) *
            (∑ j ∈ range sx, eN sx ((j : ℤ) * (s * ((q : ℤ) - (l : ℤ))))) := by
        rw [show (∑ m ∈ range sy, ∑ j ∈ range sx, ∑ p ∈ range sy, ∑ q ∈ range sx,
            f p q * eN sy ((m : ℤ) * (s * ((p : ℤ) - (k : ℤ)))) *
              eN sx ((j : ℤ) * (s * ((q : ℤ) - (l : ℤ)))))
            = ∑ p ∈ range sy, ∑ q ∈ range sx, ∑ m ∈ range sy, ∑ j ∈ range sx,
            f p q * eN sy ((m : ℤ) * (s * ((p : ℤ) - (k : ℤ)))) *
              eN sx ((j : ℤ) * (s * ((q : ℤ) - (l : ℤ)))) from ?_]
        · refine Finset.sum_congr rfl fun p _ => Finset.sum_congr rfl fun q _ => ?_
          have hfac : (f p q * ∑ m ∈ range sy, eN sy ((m : ℤ) * (s * ((p : ℤ) - (k : ℤ))))) *
              (∑ j ∈ range sx, eN sx ((j : ℤ) * (s * ((q : ℤ) - (l : ℤ)))))
              = ∑ j ∈ range sx, ∑ m ∈ range sy,
                  f p q * eN sy ((m : ℤ) * (s * ((p : ℤ) - (k : ℤ)))) *
                    eN sx ((j : ℤ) * (s * ((q : ℤ) - (l : ℤ)))) := by
            rw [Finset.mul_sum]
            refine Finset.sum_congr rfl fun j _ => ?_
            rw [Finset.mul_sum, Finset.sum_mul]
          rw [hfac]
          exact Finset.sum_comm
        · calc ∑ m ∈ range sy, ∑ j ∈ range sx, ∑ p ∈ range sy, ∑ q ∈ range sx,
                f p q * eN sy ((m : ℤ) * (s * ((p : ℤ) - (k : ℤ)))) *
                  eN sx ((j : ℤ) * (s * ((q : ℤ) - (l : ℤ))))
              = ∑ m ∈ range sy, ∑ p ∈ range sy, ∑ j ∈ range sx, ∑ q ∈ range sx,
                f p q * eN sy ((m : ℤ) * (s * ((p : ℤ) - (k : ℤ)))) *
                  eN sx ((j : ℤ) * (s * ((q : ℤ) - (l : ℤ)))) := by
                refine Finset.sum_congr rfl fun m _ => Finset.sum_comm
            _ = ∑ p ∈ range sy, ∑ m ∈ range sy, ∑ j ∈ range sx, ∑ q ∈ range sx,
                f p q * eN sy ((m : ℤ) * (s * ((p : ℤ) - (k : ℤ)))) *
                  eN sx ((j : ℤ) * (s * ((q : ℤ) - (l : ℤ)))) := Finset.sum_comm
            _ = ∑ p ∈ range sy, ∑ q ∈ range sx, ∑ m ∈ range sy, ∑ j ∈ range sx,
                f p q * eN sy ((m : ℤ) * (s * ((p : ℤ) - (k : ℤ)))) *
                  eN sx ((j : ℤ) * (s * ((q : ℤ) - (l : ℤ)))) := by
                refine Finset.sum_congr rfl fun p _ => ?_
                calc ∑ m ∈ range sy, ∑ j ∈ range sx, ∑ q ∈ range sx,
                      f p q * eN sy ((m : ℤ) * (s * ((p : ℤ) - (k : ℤ)))) *
                        eN sx ((j : ℤ) * (s * ((q : ℤ) - (l : ℤ))))
                    = ∑ m ∈ range sy, ∑ q ∈ range sx, ∑ j ∈ range sx,
                      f p q * eN sy ((m : ℤ) * (s * ((p : ℤ) - (k : ℤ)))) *
                        eN sx ((j : ℤ) * (s * ((q : ℤ) - (l : ℤ)))) := by
                      refine Finset.sum_congr rfl fun m _ => Finset.sum_comm
                  _ = _ := Finset.sum_comm
    _ = ∑ p ∈ range sy, ∑ q ∈ range sx,
          f p q * (if p = k then (sy : ℂ) else 0) * (if q = l then (sx : ℂ) else 0) := by
        refine Finset.sum_congr rfl fun p hp => Finset.sum_congr rfl fun q hq => ?_
        rw [Finset.mem_range] at hp hq
        rw [eN_sum sy hy, eN_sum sx hx,
          if_congr (dvd_sub_iff_eq hy s hs p k hp hk) rfl rfl,
          if_congr (dvd_sub_iff_eq hx s hs q l hq hl) rfl rfl]
    _ = (sy : ℂ) * (sx : ℂ) * f k l := by
        have hinner : ∀ p ∈ range sy,
            (∑ q ∈ range sx, f p q * (if p = k then (sy : ℂ) else 0) *
              (if q = l then (sx : ℂ) else 0))
            = f p l * (if p = k then (sy : ℂ) else 0) * (sx : ℂ) := by
          intro p _
          rw [Finset.sum_eq_single l]
          · simp
          · intro q _ hql
            simp [hql]
          · intro hcon
            exact absurd (Finset.mem_range.mpr hl) hcon
        rw [Finset.sum_congr rfl hinner, Finset.sum_eq_single k]
        · simp
          ring
        · intro p _ hpk
          simp [hpk]
        · intro hcon
          exact absurd (Finset.mem_range.mpr hk) hcon

/-- Fourier inversion: `ifft2 ∘ fft2` is the identity on in-range indices. -/
lemma ifft2_fft2 (sy sx : ℕ) (hy : sy ≠ 0) (hx : sx ≠ 0) (f : ℕ → ℕ → ℂ)
    (k l : ℕ) (hk : k < sy) (hl : l < sx) : ifft2 sy sx (fft2 sy sx f) k l = f k l := by
  have hcore := dft_core sy sx hy hx f k l hk hl (-1) (Or.inr rfl)
  simp only [neg_one_mul, neg_neg] at hcore
  simp only [ifft2, fft2]
  rw [hcore]
  have hy' : (sy : ℂ) ≠ 0 := Nat.cast_ne_zero.mpr hy
  have hx' : (sx : ℂ) ≠ 0 := Nat.cast_ne_zero.mpr hx
  field_simp

/-- Fourier inversion the other way: `fft2 ∘ ifft2` is the identity on
in-range indices. -/
lemma fft2_ifft2 (sy sx : ℕ) (hy : sy ≠ 0) (hx : sx ≠ 0) (f : ℕ → ℕ → ℂ)
    (k l : ℕ) (hk : k < sy) (hl : l < sx) : fft2 sy sx (ifft2 sy sx f) k l = f k l := by
  have hcore := dft_core sy sx hy hx f k l hk hl 1 (Or.inl rfl)
  simp only [one_mul] at hcore
  simp only [fft2, ifft2]
  simp only [div_mul_eq_mul_div, ← Finset.sum_div]
  rw [hcore]
  have hy' : (sy : ℂ) ≠ 0 := Nat.cast_ne_zero.mpr hy
  have hx' : (sx : ℂ) ≠ 0 := Nat.cast_ne_zero.mpr hx
  field_simp

/-! ## Cyclic-shift and negation-index arithmetic -/

lemma shift_fs_after_is (n m : ℕ) (hm : m < n) :
    ((m + n / 2) % n + (n - n / 2)) % n = m := by
  have h1 : n / 2 ≤ n := Nat.div_le_self n 2
  rw [Nat.mod_add_mod]
  have h2 : m + n / 2 + (n - n / 2) = m + n := by omega
  rw [h2, Nat.add_mod_right, Nat.mod_eq_of_lt hm]

lemma shift_is_after_fs (n m : ℕ) (hm : m < n) :
    ((m + (n - n / 2)) % n + n / 2) % n = m := by
  have h1 : n / 2 ≤ n := Nat.div_le_self n 2
  rw [Nat.mod_add_mod]
  have h2 : m + (n - n / 2) + n / 2 = m + n := by omega
  rw [h2, Nat.add_mod_right, Nat.mod_eq_of_lt hm]

lemma nu_lt (n m : ℕ) (hn : n ≠ 0) : (n - m) % n < n :=
  Nat.mod_lt _ (Nat.pos_of_ne_zero hn)

lemma nu_nu (n m : ℕ) (hm : m < n) : (n - (n - m) % n) % n = m := by
  rcases Nat.eq_zero_or_pos m with h | h
  · subst h
    simp
  · rw [Nat.mod_eq_of_lt (show n - m < n by omega), Nat.sub_sub_self (show m ≤ n by omega),
      Nat.mod_eq_of_lt hm]

lemma eN_nu_mul (n m : ℕ) (hm : m < n) (k : ℤ) :
    eN n (-((((n - m) % n : ℕ) : ℤ) * k)) = eN n ((m : ℤ) * k) := by
  rcases Nat.eq_zero_or_pos m with h | h
  · subst h
    simp [Nat.mod_self]
  · have hlt : n - m < n := by omega
    rw [Nat.mod_eq_of_lt hlt]
    have hc : ((n - m : ℕ) : ℤ) = (n : ℤ) - (m : ℤ) := by omega
    have harg : -(((n - m : ℕ) : ℤ) * k) = (m : ℤ) * k + (n : ℤ) * (-k) := by
      rw [hc]
      ring
    rw [harg, eN_shift]

lemma eN_mul_nu (n m : ℕ) (hm : m < n) (k : ℤ) :
    eN n (-(k * (((n - m) % n : ℕ) : ℤ))) = eN n (k * (m : ℤ)) := by
  have h1 : -(k * (((n - m) % n : ℕ) : ℤ)) = -((((n - m) % n : ℕ) : ℤ) * k) := by ring
  have h2 : k * (m : ℤ) = (m : ℤ) * k := by ring
  rw [h1, h2, eN_nu_mul n m hm k]

lemma sum_nu_reindex (n : ℕ) (hn : n ≠ 0) (f : ℕ → ℂ) :
    ∑ m ∈ range n, f ((n - m) % n) = ∑ m ∈ range n, f m := by
  apply Finset.sum_nbij' (fun m => (n - m) % n) (fun m => (n - m) % n)
  · intro a ha
    exact Finset.mem_range.mpr (nu_lt n a hn)
  · intro a ha
    exact Finset.mem_range.mpr (nu_lt n a hn)
  · intro a ha
    exact nu_nu n a (Finset.mem_range.mp ha)
  · intro a ha
    exact nu_nu n a (Finset.mem_range.mp ha)
  · intro a ha
    rfl

/-! ## Mask symmetry under frequency negation -/

lemma mod2n_eq (a n : ℕ) (h : a < 2 * n) : a % n = if a < n then a else a - n := by
  split
  · exact Nat.mod_eq_of_lt (by omega)
  · rw [Nat.mod_eq_sub_mod (by omega), Nat.mod_eq_of_lt (by omega)]

lemma nu_shift_natAbs (n m : ℕ) (hn : n ≠ 0) (hm : m < n) :
    (((((n - m) % n + n / 2) % n : ℕ) : ℤ) - ((n / 2 : ℕ) : ℤ)).natAbs =
      ((((m + n / 2) % n : ℕ) : ℤ) - ((n / 2 : ℕ) : ℤ)).natAbs := by
  rcases Nat.eq_zero_or_pos m with hm0 | hm0
  · subst hm0
    simp [Nat.mod_self]
  · have e0 : (n - m) % n = n - m := Nat.mod_eq_of_lt (by omega)
    have e1 : (m + n / 2) % n = if m + n / 2 < n then m + n / 2 else m + n / 2 - n :=
      mod2n_eq _ _ (by omega)
    have e2 : (n - m + n / 2) % n =
        if n - m + n / 2 < n then n - m + n / 2 else n - m + n / 2 - n :=
      mod2n_eq _ _ (by omega)
    rw [e0, e1, e2]
    split_ifs <;> omega

lemma uval_abs_nu (d : ℝ) (n : ℕ) (m : ℕ) (hn : n ≠ 0) (hm : m < n) :
    |forward_ft_unit d n (((n - m) % n + n / 2) % n)| =
      |forward_ft_unit d n ((m + n / 2) % n)| := by
  have key := nu_shift_natAbs n m hn hm
  simp only [forward_ft_unit]
  rw [abs_div, abs_div]
  congr 1
  have c1 : ∀ p : ℕ, (p : ℝ) - ((n / 2 : ℕ) : ℝ) = (((p : ℤ) - ((n / 2 : ℕ) : ℤ) : ℤ) : ℝ) := by
    intro p
    rw [Int.cast_sub, Int.cast_natCast, Int.cast_natCast]
  have habs : ∀ z : ℤ, |((z : ℤ) : ℝ)| = ((z.natAbs : ℕ) : ℝ) := by
    intro z
    simp [Int.cast_natAbs]
  rw [c1, c1, habs, habs, key]

lemma maskP_iff_abs (sy sx : ℕ) (d wllow wlhigh : ℝ) (p q : ℕ) :
    maskP sy sx d wllow wlhigh p q ↔
      (1 / wllow < |forward_ft_unit d sx q| ∨ 1 / wllow < |forward_ft_unit d sy p| ∨
        (|forward_ft_unit d sx q| < 1 / wlhigh ∧ |forward_ft_unit d sy p| < 1 / wlhigh)) := by
  simp only [maskP, gt_iff_lt]
  constructor
  · rintro (((hx1 | hx2) | (hy1 | hy2)) | ⟨⟨hx1, hx2⟩, hy1, hy2⟩)
    · exact Or.inl (lt_abs.mpr (Or.inr (by linarith)))
    · exact Or.inl (lt_abs.mpr (Or.inl hx2))
    · exact Or.inr (Or.inl (lt_abs.mpr (Or.inr (by linarith))))
    · exact Or.inr (Or.inl (lt_abs.mpr (Or.inl hy2)))
    · exact Or.inr (Or.inr ⟨abs_lt.mpr ⟨by linarith, hx2⟩, abs_lt.mpr ⟨by linarith, hy2⟩⟩)
  · rintro (h | h | ⟨hx', hy'⟩)
    · rcases lt_abs.mp h with h1 | h2
      · exact Or.inl (Or.inl (Or.inr h1))
      · exact Or.inl (Or.inl (Or.inl (by linarith)))
    · rcases lt_abs.mp h with h1 | h2
      · exact Or.inl (Or.inr (Or.inr h1))
      · exact Or.inl (Or.inr (Or.inl (by linarith)))
    · rcases abs_lt.mp hx' with ⟨h1, h2⟩
      rcases abs_lt.mp hy' with ⟨h3, h4⟩
      exact Or.inr ⟨⟨by linarith, h2⟩, by linarith, h4⟩

lemma maskP_nu (sy sx : ℕ) (hy : sy ≠ 0) (hx : sx ≠ 0) (d wllow wlhigh : ℝ)
    (m j : ℕ) (hm : m < sy) (hj : j < sx) :
    (maskP sy sx d wllow wlhigh (((sy - m) % sy + sy / 2) % sy) (((sx - j) % sx + sx / 2) % sx) ↔
      maskP sy sx d wllow wlhigh ((m + sy / 2) % sy) ((j + sx / 2) % sx)) := by
  rw [maskP_iff_abs, maskP_iff_abs, uval_abs_nu d sy m hy hm, uval_abs_nu d sx j hx hj]

/-! ## Real input gives a real filtered output -/

lemma fft2_real_hermitian (sy sx : ℕ) (w : ℕ → ℕ → ℂ)
    (hw : ∀ p q, (starRingEnd ℂ) (w p q) = w p q) (m j : ℕ) (hm : m < sy) (hj : j < sx) :
    fft2 sy sx w ((sy - m) % sy) ((sx - j) % sx) = (starRingEnd ℂ) (fft2 sy sx w m j) := by
  simp only [fft2]
  rw [map_sum]
  refine Finset.sum_congr rfl fun p _ => ?_
  rw [map_sum]
  refine Finset.sum_congr rfl fun q _ => ?_
  rw [map_mul, map_mul, hw, eN_conj, eN_conj]
  simp only [neg_neg]
  rw [eN_nu_mul sy m hm, eN_nu_mul sx j hj]

lemma ifft2_conj_fixed (sy sx : ℕ) (hy : sy ≠ 0) (hx : sx ≠ 0) (G : ℕ → ℕ → ℂ)
    (hG : ∀ m, m < sy → ∀ j, j < sx →
      G ((sy - m) % sy) ((sx - j) % sx) = (starRingEnd ℂ) (G m j))
    (k l : ℕ) : (starRingEnd ℂ) (ifft2 sy sx G k l) = ifft2 sy sx G k l := by
  simp only [ifft2]
  rw [map_div₀]
  have hden : (starRingEnd ℂ) ((sy : ℂ) * (sx : ℂ)) = (sy : ℂ) * (sx : ℂ) := by
    simp
  rw [hden]
  congr 1
  calc (starRingEnd ℂ) (∑ m ∈ range sy, ∑ j ∈ range sx,
        G m j * eN sy ((k : ℤ) * (m : ℤ)) * eN sx ((l : ℤ) * (j : ℤ)))
      = ∑ m ∈ range sy, ∑ j ∈ range sx,
          G ((sy - m) % sy) ((sx - j) % sx) * eN sy (-((k : ℤ) * (m : ℤ))) *
            eN sx (-((l : ℤ) * (j : ℤ))) := by
        rw [map_sum]
        refine Finset.sum_congr rfl fun m hm => ?_
        rw [map_sum]
        refine Finset.sum_congr rfl fun j hj => ?_
        rw [Finset.mem_range] at hm hj
        rw [map_mul, map_mul, eN_conj, eN_conj, ← hG m hm j hj]
    _ = ∑ m ∈ range sy, ∑ j ∈ range sx,
          G ((sy - m) % sy) ((sx - j) % sx) *
            eN sy ((k : ℤ) * ((((sy - m) % sy : ℕ)) : ℤ)) *
            eN sx ((l : ℤ) * ((((sx - j) % sx : ℕ)) : ℤ)) := by
        refine Finset.sum_congr rfl fun m hm => Finset.sum_congr rfl fun j hj => ?_
        rw [Finset.mem_range] at hm hj
        have h1 : eN sy (-((k : ℤ) * (m : ℤ)))
            = eN sy ((k : ℤ) * ((((sy - m) % sy : ℕ)) : ℤ)) := by
          have h := eN_mul_nu sy ((sy - m) % sy) (nu_lt sy m hy) k
          rw [nu_nu sy m hm] at h
          exact h
        have h2 : eN sx (-((l : ℤ) * (j : ℤ)))
            = eN sx ((l : ℤ) * ((((sx - j) % sx : ℕ)) : ℤ)) := by
          have h := eN_mul_nu sx ((sx - j) % sx) (nu_lt sx j hx) l
          rw [nu_nu sx j hj] at h
          exact h
        rw [h1, h2]
    _ = ∑ m ∈ range sy, ∑ j ∈ range sx,
          G ((sy - m) % sy) j * eN sy ((k : ℤ) * ((((sy - m) % sy : ℕ)) : ℤ)) *
            eN sx ((l : ℤ) * (j : ℤ)) := by
        refine Finset.sum_congr rfl fun m _ => ?_
        exact sum_nu_reindex sx hx
          (fun u => G ((sy - m) % sy) u *
            eN sy ((k : ℤ) * ((((sy - m) % sy : ℕ)) : ℤ)) * eN sx ((l : ℤ) * (u : ℤ)))
    _ = ∑ m ∈ range sy, ∑ j ∈ range sx,
          G m j * eN sy ((k : ℤ) * (m : ℤ)) * eN sx ((l : ℤ) * (j : ℤ)) :=
        sum_nu_reindex sy hy
          (fun t => ∑ j ∈ range sx,
            G t j * eN sy ((k : ℤ) * (t : ℤ)) * eN sx ((l : ℤ) * (j : ℤ)))

/-! ## Grid/function plumbing -/

lemma getD_map_range {α : Type} (n : ℕ) (F : ℕ → α) (d : α) (i : ℕ) (hi : i < n) :
    ((List.range n).map F).getD i d = F i := by
  rw [List.getD_eq_getElem?_getD, List.getElem?_map, List.getElem?_range hi]
  rfl

lemma length_ofFun (sy sx : ℕ) (f : ℕ → ℕ → ℝ) : (ofFun sy sx f).length = sy := by
  simp [ofFun]

lemma row_ofFun (sy sx : ℕ) (f : ℕ → ℕ → ℝ) (i : ℕ) (hi : i < sy) :
    (ofFun sy sx f).getD i [] = (List.range sx).map (fun j => some (f i j)) :=
  getD_map_range sy _ [] i hi

lemma entry_ofFun (sy sx : ℕ) (f : ℕ → ℕ → ℝ) (i j : ℕ) (hi : i < sy) (hj : j < sx) :
    entry (ofFun sy sx f) i j = some (f i j) := by
  rw [entry, row_ofFun sy sx f i hi, getD_map_range sx _ none j hj]

lemma toFun_ofFun (sy sx : ℕ) (f : ℕ → ℕ → ℝ) (i j : ℕ) (hi : i < sy) (hj : j < sx) :
    toFun (ofFun sy sx f) i j = ((f i j : ℝ) : ℂ) := by
  rw [toFun, entry_ofFun sy sx f i j hi hj]
  rfl

lemma numCols_ofFun (sy sx : ℕ) (f : ℕ → ℕ → ℝ) (hsy : sy ≠ 0) :
    numCols (ofFun sy sx f) = sx := by
  rcases Nat.exists_eq_succ_of_ne_zero hsy with ⟨n, rfl⟩
  rw [numCols, ofFun, List.range_succ_eq_map]
  simp

lemma isRect_ofFun (sy sx : ℕ) (f : ℕ → ℕ → ℝ) : IsRect (ofFun sy sx f) := by
  intro r hr
  rcases Nat.eq_zero_or_pos sy with h | h
  · subst h
    simp [ofFun] at hr
  · rw [numCols_ofFun sy sx f (by omega)]
    rw [ofFun, List.mem_map] at hr
    obtain ⟨i, _, rfl⟩ := hr
    simp

lemma allFinite_ofFun (sy sx : ℕ) (f : ℕ → ℕ → ℝ) : AllFinite (ofFun sy sx f) := by
  intro v hv
  rw [List.mem_flatten] at hv
  obtain ⟨r, hr, hvr⟩ := hv
  rw [ofFun, List.mem_map] at hr
  obtain ⟨i, _, rfl⟩ := hr
  rw [List.mem_map] at hvr
  obtain ⟨j, _, rfl⟩ := hvr
  rfl

lemma rowSetNaN_eq (o n : List Val) (hfin : ∀ v ∈ o, isfiniteV v = true)
    (hlen : o.length = n.length) :
    List.zipWith (fun ov nv => if isfiniteV ov then nv else none) o n = n := by
  induction o generalizing n with
  | nil =>
      cases n
      · rfl
      · simp at hlen
  | cons a o ih =>
      cases n with
      | nil => simp at hlen
      | cons b n =>
          simp only [List.zipWith_cons_cons]
          have ha : isfiniteV a = true := hfin a (List.mem_cons_self a o)
          rw [if_pos ha,
            ih n (fun v hv => hfin v (List.mem_cons_of_mem a hv)) (by simpa using hlen)]

lemma setNaN_eq_of_allFinite : ∀ (orig new : Grid), AllFinite orig →
    orig.length = new.length →
    (∀ i, i < orig.length → (orig.getD i []).length = (new.getD i []).length) →
    setNaN orig new = new := by
  intro orig
  induction orig with
  | nil =>
      intro new _ hlen _
      cases new
      · rfl
      · simp at hlen
  | cons o os ih =>
      intro new hfin hlen hrow
      cases new with
      | nil => simp at hlen
      | cons n ns =>
          simp only [setNaN, List.zipWith_cons_cons]
          have h1 : List.zipWith (fun ov nv => if isfiniteV ov then nv else none) o n = n := by
        
            apply rowSetNaN_eq o n
            · intro v hv
              exact hfin v (List.mem_flatten.mpr ⟨o, List.mem_cons_self o os, hv⟩)
            · exact hrow 0 (by simp)
          rw [h1]
          congr 1
          apply ih ns
          · intro v hv
            refine hfin v ?_
            rw [List.flatten_cons]
            exact List.mem_append_right o hv
          · simpa using hlen
          · intro i hi
            exact hrow (i + 1) (by simp only [List.length_cons]; omega)

/-! ## Band-reject filter: shape, finiteness, realness, idempotence -/

lemma bandreject_filter_eq_ofFun (g : Grid) (d wllow wlhigh : ℝ) :
    bandreject_filter g d wllow wlhigh
      = ofFun (numRows g) (numCols g)
          (fun i j =>
            (brOut (numRows g) (numCols g) (maskP (numRows g) (numCols g) d wllow wlhigh)
              (toFun g) i j).re) := rfl

lemma bandreject_filter_length (g : Grid) (d wllow wlhigh : ℝ) :
    (bandreject_filter g d wllow wlhigh).length = numRows g :=
  length_ofFun _ _ _

lemma bandreject_filter_numCols (g : Grid) (d wllow wlhigh : ℝ) :
    numCols (bandreject_filter g d wllow wlhigh) = numCols g := by
  rcases Nat.eq_zero_or_pos (numRows g) with h | h
  · have hg : g = [] := List.length_eq_zero.mp h
    subst hg
    rfl
  · exact numCols_ofFun _ _ _ (by omega)

lemma bandreject_filter_allFinite (g : Grid) (d wllow wlhigh : ℝ) :
    AllFinite (bandreject_filter g d wllow wlhigh) :=
  allFinite_ofFun _ _ _

lemma ofFun_congr (sy sx : ℕ) (f f' : ℕ → ℕ → ℝ)
    (h : ∀ i, i < sy → ∀ j, j < sx → f i j = f' i j) : ofFun sy sx f = ofFun sy sx f' := by
  rw [ofFun, ofFun]
  apply List.map_congr_left
  intro i hi
  apply List.map_congr_left
  intro j hj
  rw [h i (List.mem_range.mp hi) j (List.mem_range.mp hj)]

lemma toFun_real (g : Grid) (p q : ℕ) : (starRingEnd ℂ) (toFun g p q) = toFun g p q :=
  Complex.conj_ofReal _

lemma hGform (sy sx : ℕ) (d wllow wlhigh : ℝ) (w : ℕ → ℕ → ℂ) (m j : ℕ)
    (hm : m < sy) (hj : j < sx) :
    ifftshift2 sy sx (maskZero (maskP sy sx d wllow wlhigh) (brFourier sy sx w)) m j
      = if maskP sy sx d wllow wlhigh ((m + sy / 2) % sy) ((j + sx / 2) % sx) then 0
        else fft2 sy sx (ifftshift2 sy sx w) m j := by
  simp only [ifftshift2, maskZero, brFourier, fftshift2]
  rw [shift_fs_after_is sy m hm, shift_fs_after_is sx j hj]

lemma brOut_conj_fixed (sy sx : ℕ) (hy : sy ≠ 0) (hx : sx ≠ 0) (d wllow wlhigh : ℝ)
    (w : ℕ → ℕ → ℂ) (hw : ∀ p q, (starRingEnd ℂ) (w p q) = w p q) (k l : ℕ) :
    (starRingEnd ℂ) (brOut sy sx (maskP sy sx d wllow wlhigh) w k l)
      = brOut sy sx (maskP sy sx d wllow wlhigh) w k l := by
  have hherm : ∀ m, m < sy → ∀ j, j < sx →
      (ifftshift2 sy sx (maskZero (maskP sy sx d wllow wlhigh) (brFourier sy sx w)))
          ((sy - m) % sy) ((sx - j) % sx)
        = (starRingEnd ℂ)
            ((ifftshift2 sy sx (maskZero (maskP sy sx d wllow wlhigh) (brFourier sy sx w))) m j) := by
    intro m hm j hj
    rw [hGform sy sx d wllow wlhigh w ((sy - m) % sy) ((sx - j) % sx) (nu_lt sy m hy)
      (nu_lt sx j hx), hGform sy sx d wllow wlhigh w m j hm hj]
    rw [apply_ite (starRingEnd ℂ), map_zero]
    have hmask := maskP_nu sy sx hy hx d wllow wlhigh m j hm hj
    have hval : fft2 sy sx (ifftshift2 sy sx w) ((sy - m) % sy) ((sx - j) % sx)
        = (starRingEnd ℂ) (fft2 sy sx (ifftshift2 sy sx w) m j) :=
      fft2_real_hermitian sy sx (ifftshift2 sy sx w)
        (fun p q => hw ((p + sy / 2) % sy) ((q + sx / 2) % sx)) m j hm hj
    exact if_congr hmask rfl hval
  simp only [brOut, fftshift2]
  exact ifft2_conj_fixed sy sx hy hx _ hherm _ _

lemma brOut_pass2 (sy sx : ℕ) (hy : sy ≠ 0) (hx : sx ≠ 0) (d wllow wlhigh : ℝ)
    (w w1 : ℕ → ℕ → ℂ)
    (hw1 : ∀ i, i < sy → ∀ j, j < sx →
      w1 i j = brOut sy sx (maskP sy sx d wllow wlhigh) w i j) (k l : ℕ) :
    brOut sy sx (maskP sy sx d wllow wlhigh) w1 k l
      = brOut sy sx (maskP sy sx d wllow wlhigh) w k l := by
  -- step 1: the zero-frequency-packed second-pass input agrees with the
  -- inverse transform of the masked spectrum of the first pass
  have hIS : ∀ m, m < sy → ∀ j, j < sx →
      ifftshift2 sy sx w1 m j
        = ifft2 sy sx
            (ifftshift2 sy sx (maskZero (maskP sy sx d wllow wlhigh) (brFourier sy sx w))) m j := by
    intro m hm j hj
    have hm' : (m + sy / 2) % sy < sy := Nat.mod_lt _ (Nat.pos_of_ne_zero hy)
    have hj' : (j + sx / 2) % sx < sx := Nat.mod_lt _ (Nat.pos_of_ne_zero hx)
    rw [ifftshift2]
    rw [hw1 _ hm' _ hj']
    simp only [brOut, fftshift2]
    rw [shift_fs_after_is sy m hm, shift_fs_after_is sx j hj]
  -- step 2: the second-pass forward spectrum is the first-pass masked spectrum
  have hF1 : ∀ p q, p < sy → q < sx →
      brFourier sy sx w1 p q
        = maskZero (maskP sy sx d wllow wlhigh) (brFourier sy sx w) p q := by
    intro p q hp hq
    have hBp : (p + (sy - sy / 2)) % sy < sy := Nat.mod_lt _ (Nat.pos_of_ne_zero hy)
    have hBq : (q + (sx - sx / 2)) % sx < sx := Nat.mod_lt _ (Nat.pos_of_ne_zero hx)
    have h2 : fft2 sy sx (ifftshift2 sy sx w1) ((p + (sy - sy / 2)) % sy)
        ((q + (sx - sx / 2)) % sx)
        = ifftshift2 sy sx (maskZero (maskP sy sx d wllow wlhigh) (brFourier sy sx w))
            ((p + (sy - sy / 2)) % sy) ((q + (sx - sx / 2)) % sx) := by
      have hcong : fft2 sy sx (ifftshift2 sy sx w1) ((p + (sy - sy / 2)) % sy)
          ((q + (sx - sx / 2)) % sx)
          = fft2 sy sx (ifft2 sy sx
              (ifftshift2 sy sx (maskZero (maskP sy sx d wllow wlhigh) (brFourier sy sx w))))
              ((p + (sy - sy / 2)) % sy) ((q + (sx - sx / 2)) % sx) := by
        simp only [fft2]
        refine Finset.sum_congr rfl fun m hm => Finset.sum_congr rfl fun j hj => ?_
        rw [Finset.mem_range] at hm hj
        rw [hIS m hm j hj]
      rw [hcong, fft2_ifft2 sy sx hy hx _ _ _ hBp hBq]
    rw [brFourier, fftshift2, h2, hGform sy sx d wllow wlhigh w _ _ hBp hBq,
      shift_is_after_fs sy p hp, shift_is_after_fs sx q hq]
    simp only [maskZero, brFourier, fftshift2]
  -- step 3: masking again changes nothing, and the inverse side only reads
  -- the masked spectrum inside the index ranges
  have hmasked : ∀ m, m < sy → ∀ j, j < sx →
      ifftshift2 sy sx (maskZero (maskP sy sx d wllow wlhigh) (brFourier sy sx w1)) m j
        = ifftshift2 sy sx (maskZero (maskP sy sx d wllow wlhigh) (brFourier sy sx w)) m j := by
    intro m hm j hj
    have hm' : (m + sy / 2) % sy < sy := Nat.mod_lt _ (Nat.pos_of_ne_zero hy)
    have hj' : (j + sx / 2) % sx < sx := Nat.mod_lt _ (Nat.pos_of_ne_zero hx)
    simp only [ifftshift2, maskZero]
    rw [hF1 _ _ hm' hj']
    simp only [maskZero]
    split
    · rfl
    · rfl
  simp only [brOut, fftshift2, ifft2]
  congr 1
  refine Finset.sum_congr rfl fun m hm => Finset.sum_congr rfl fun j hj => ?_
  rw [Finset.mem_range] at hm hj
  rw [hmasked m hm j hj]

set_option maxHeartbeats 1000000 in
lemma bandreject_filter_idem (g : Grid) (d wllow wlhigh : ℝ) :
    bandreject_filter (bandreject_filter g d wllow wlhigh) d wllow wlhigh
      = bandreject_filter g d wllow wlhigh := by
  rcases Nat.eq_zero_or_pos (numRows g) with hy0 | hy0
  · have hg : g = [] := List.length_eq_zero.mp hy0
    subst hg
    rfl
  rcases Nat.eq_zero_or_pos (numCols g) with hx0 | hx0
  · -- zero columns: every filtered grid is `numRows g` copies of the empty row
    have hrows : ∀ (f : ℕ → ℕ → ℝ), ofFun (numRows g) 0 f
        = (List.range (numRows g)).map (fun _ => ([] : List Val)) := fun f => rfl
    have h1 : bandreject_filter g d wllow wlhigh
        = (List.range (numRows g)).map (fun _ => ([] : List Val)) := by
      rw [bandreject_filter_eq_ofFun, hx0, hrows]
    have hlen : numRows (bandreject_filter g d wllow wlhigh) = numRows g := by
      rw [h1, numRows, List.length_map, List.length_range]
    have hcols : numCols (bandreject_filter g d wllow wlhigh) = 0 := by
      rw [bandreject_filter_numCols, hx0]
    rw [bandreject_filter_eq_ofFun (bandreject_filter g d wllow wlhigh), hlen, hcols, hrows, h1]
  · -- main case: nonempty grid
    have hy : numRows g ≠ 0 := by omega
    have hx : numCols g ≠ 0 := by omega
    have hlen : numRows (bandreject_filter g d wllow wlhigh) = numRows g :=
      bandreject_filter_length g d wllow wlhigh
    have hcols : numCols (bandreject_filter g d wllow wlhigh) = numCols g :=
      bandreject_filter_numCols g d wllow wlhigh
    rw [bandreject_filter_eq_ofFun (bandreject_filter g d wllow wlhigh), hlen, hcols,
      bandreject_filter_eq_ofFun g]
    apply ofFun_congr
    intro i hi j hj
    refine congrArg Complex.re ?_
    apply brOut_pass2 (numRows g) (numCols g) hy hx d wllow wlhigh (toFun g)
    intro i' hi' j' hj'
    rw [toFun_ofFun _ _ _ _ _ hi' hj']
    exact Complex.conj_eq_iff_re.mp
      (brOut_conj_fixed (numRows g) (numCols g) hy hx d wllow wlhigh (toFun g)
        (toFun_real g) i' j')

lemma getD_zipWith {α β γ : Type} (f : α → β → γ) (a : List α) (b : List β)
    (da : α) (db : β) (dc : γ) (i : ℕ) (hi : i < a.length) (hi' : i < b.length) :
    (List.zipWith f a b).getD i dc = f (a.getD i da) (b.getD i db) := by
  rw [List.getD_eq_getElem?_getD, List.getElem?_zipWith,
    List.getElem?_eq_getElem hi, List.getElem?_eq_getElem hi']
  simp [List.getD_eq_getElem?_getD, List.getElem?_eq_getElem, hi, hi']

lemma length_setNaN (o n : Grid) : (setNaN o n).length = min o.length n.length :=
  List.length_zipWith _ _ _

lemma row_setNaN (o n : Grid) (i : ℕ) (hi : i < o.length) (hi' : i < n.length) :
    (setNaN o n).getD i [] =
      List.zipWith (fun ov nv => if isfiniteV ov then nv else none) (o.getD i []) (n.getD i []) :=
  getD_zipWith _ o n [] [] [] i hi hi'

lemma entry_setNaN (o n : Grid) (i j : ℕ) (hi : i < o.length) (hi' : i < n.length)
    (hj : j < (o.getD i []).length) (hj' : j < (n.getD i []).length) :
    entry (setNaN o n) i j = if isfiniteV (entry o i j) then entry n i j else none := by
  rw [entry, row_setNaN o n i hi hi',
    getD_zipWith _ (o.getD i []) (n.getD i []) none none none j hj hj']
  rfl

lemma brOut_congr_mask (sy sx : ℕ) (P Q : ℕ → ℕ → Prop) (hPQ : ∀ p q, P p q ↔ Q p q)
    (w : ℕ → ℕ → ℂ) (k l : ℕ) : brOut sy sx P w k l = brOut sy sx Q w k l := by
  simp only [brOut, fftshift2, ifft2, ifftshift2, maskZero]
  congr 1
  refine Finset.sum_congr rfl fun m _ => Finset.sum_congr rfl fun j _ => ?_
  rw [if_congr (hPQ _ _) rfl rfl]

lemma Interferogram.bandreject_ok (pm : Interferogram) (d wllow wlhigh : ℝ)
    (hd : pm.sample_spacing = some d) :
    pm.bandreject wllow wlhigh
      = Except.ok { pm with phase := setNaN pm.phase (bandreject_filter pm.phase d wllow wlhigh) } := by
  simp only [Interferogram.bandreject, hd]

/-! ## Concrete evaluation of the band-reject pipeline on a 1 × 2 grid -/

lemma eN_one (a : ℤ) : eN 1 a = 1 := by
  have h := eN_int_mul 1 a
  rwa [Nat.cast_one, one_mul] at h

lemma eN_two_one : eN 2 1 = -1 := by
  rw [eN]
  have harg : 2 * (Real.pi : ℂ) * Complex.I * ((1 : ℤ) : ℂ) / ((2 : ℕ) : ℂ)
      = (Real.pi : ℂ) * Complex.I := by
    push_cast
    field_simp
    ring
  rw [harg]
  exact Complex.exp_pi_mul_I

lemma mask_ce_ff : ¬ maskP 1 2 1 1 2 0 0 := by
  simp only [maskP, forward_ft_unit]
  norm_num

lemma mask_ce_tt : maskP 1 2 1 1 2 0 1 := by
  simp only [maskP, forward_ft_unit]
  norm_num

lemma brOut_ce (c : ℝ) :
    brOut 1 2 (maskP 1 2 1 1 2) (toFun [[none, some c]]) 0 0 = ((-(c / 2) : ℝ) : ℂ) ∧
      brOut 1 2 (maskP 1 2 1 1 2) (toFun [[none, some c]]) 0 1 = (((c / 2) : ℝ) : ℂ) := by
  have hw00 : toFun [[none, some c]] 0 0 = 0 := by
    simp [toFun, entry]
  have hw01 : toFun [[none, some c]] 0 1 = (c : ℂ) := by
    simp [toFun, entry]
  have hIS0 : ifftshift2 1 2 (toFun [[none, some c]]) 0 0 = (c : ℂ) := by
    simp only [ifftshift2]
    norm_num [hw01]
  have hIS1 : ifftshift2 1 2 (toFun [[none, some c]]) 0 1 = 0 := by
    simp only [ifftshift2]
    norm_num [hw00]
  have hF : ∀ k l : ℕ, fft2 1 2 (ifftshift2 1 2 (toFun [[none, some c]])) k l = (c : ℂ) := by
    intro k l
    simp only [fft2, Finset.sum_range_succ, Finset.sum_range_zero]
    norm_num [hIS0, hIS1, eN_one, eN_zero]
  have hM00 : maskZero (maskP 1 2 1 1 2) (brFourier 1 2 (toFun [[none, some c]])) 0 0
      = (c : ℂ) := by
    simp only [maskZero, brFourier, fftshift2]
    rw [if_neg mask_ce_ff, hF]
  have hM01 : maskZero (maskP 1 2 1 1 2) (brFourier 1 2 (toFun [[none, some c]])) 0 1 = 0 := by
    simp only [maskZero]
    rw [if_pos mask_ce_tt]
  have hG0 : ifftshift2 1 2
      (maskZero (maskP 1 2 1 1 2) (brFourier 1 2 (toFun [[none, some c]]))) 0 0 = 0 := by
    simp only [ifftshift2]
    norm_num [hM01]
  have hG1 : ifftshift2 1 2
      (maskZero (maskP 1 2 1 1 2) (brFourier 1 2 (toFun [[none, some c]]))) 0 1 = (c : ℂ) := by
    simp only [ifftshift2]
    norm_num [hM00]
  have hO0 : ifft2 1 2
      (ifftshift2 1 2 (maskZero (maskP 1 2 1 1 2) (brFourier 1 2 (toFun [[none, some c]])))) 0 0
      = (c : ℂ) / 2 := by
    simp only [ifft2, Finset.sum_range_succ, Finset.sum_range_zero]
    norm_num [hG0, hG1, eN_one, eN_zero]
  have hO1 : ifft2 1 2
      (ifftshift2 1 2 (maskZero (maskP 1 2 1 1 2) (brFourier 1 2 (toFun [[none, some c]])))) 0 1
      = -((c : ℂ) / 2) := by
    simp only [ifft2, Finset.sum_range_succ, Finset.sum_range_zero]
    norm_num [hG0, hG1, eN_one, eN_two_one]
    ring
  constructor
  · show fftshift2 1 2 _ 0 0 = _
    simp only [brOut, fftshift2]
    norm_num [hO1]
  · show fftshift2 1 2 _ 0 1 = _
    simp only [brOut, fftshift2]
    norm_num [hO0]

lemma getD_mem {α : Type} (l : List α) (i : ℕ) (d : α) (h : i < l.length) : l.getD i d ∈ l := by
  rw [List.getD_eq_getElem?_getD, List.getElem?_eq_getElem h]
  simpa using List.getElem_mem h

lemma headD_eq_getD {α : Type} (l : List α) (d : α) : l.headD d = l.getD 0 d := by
  cases l <;> rfl

lemma bandreject_spec_eq_ofFun (g : Grid) (d wllow wlhigh : ℝ) :
    bandreject_spec g d wllow wlhigh
      = ofFun (numRows g) (numCols g)
          (fun i j =>
            (brOut (numRows g) (numCols g) (maskSpecP (numRows g) (numCols g) d wllow wlhigh)
              (toFun g) i j).re) := rfl

lemma bandreject_filter_entry (g : Grid) (d wllow wlhigh : ℝ) (i j : ℕ)
    (hi : i < numRows g) (hj : j < numCols g) :
    entry (bandreject_filter g d wllow wlhigh) i j
      = some ((brOut (numRows g) (numCols g) (maskP (numRows g) (numCols g) d wllow wlhigh)
          (toFun g) i j).re) := by
  rw [bandreject_filter_eq_ofFun]
  exact entry_ofFun _ _ _ i j hi hj

/-- **C2.**  For every input grid, the band-reject filter coincides with
the spec's description: it zeroes exactly the centred-frequency bins of
the mask `|ux| > f_high ∨ |uy| > f_high ∨ (|ux| < f_low ∧ |uy| < f_low)`
with `f_high = 1/wavelength_low`, `f_low = 1/wavelength_high` (a
per-axis separable band), and returns the real part of the inverse
transform with the same shape (rows and columns) as the input. -/
theorem claim_C2_bandreject_filter_separable_mask (g : Grid) (d wllow wlhigh : ℝ) :
    bandreject_filter g d wllow wlhigh = bandreject_spec g d wllow wlhigh ∧
      (bandreject_filter g d wllow wlhigh).length = numRows g ∧
      numCols (bandreject_filter g d wllow wlhigh) = numCols g := by
  refine ⟨?_, bandreject_filter_length g d wllow wlhigh, bandreject_filter_numCols g d wllow wlhigh⟩
  rw [bandreject_filter_eq_ofFun, bandreject_spec_eq_ofFun]
  apply ofFun_congr
  intro i _ j _
  refine congrArg Complex.re ?_
  exact brOut_congr_mask (numRows g) (numCols g) _ _
    (fun p q => maskP_iff_abs (numRows g) (numCols g) d wllow wlhigh p q) (toFun g) i j

/-- **C6.**  After `Interferogram.bandreject`, the set of non-finite
sample positions is exactly the set of non-finite positions before the
call: the method re-applies the original invalid mask, and the filter
itself produces only finite samples. -/
theorem claim_C6_bandreject_preserves_invalid_set (pm : Interferogram) (d wllow wlhigh : ℝ)
    (hd : pm.sample_spacing = some d) (hrect : IsRect pm.phase) :
    ∃ pm', pm.bandreject wllow wlhigh = Except.ok pm' ∧
      numRows pm'.phase = numRows pm.phase ∧
      numCols pm'.phase = numCols pm.phase ∧
      (∀ i, i < numRows pm.phase → ∀ j, j < numCols pm.phase →
        isfiniteV (entry pm'.phase i j) = isfiniteV (entry pm.phase i j)) := by
  refine ⟨_, Interferogram.bandreject_ok pm d wllow wlhigh hd, ?_, ?_, ?_⟩
  · show numRows (setNaN pm.phase (bandreject_filter pm.phase d wllow wlhigh)) = numRows pm.phase
    rw [numRows, length_setNaN, bandreject_filter_length]
    exact min_self _
  · show numCols (setNaN pm.phase (bandreject_filter pm.phase d wllow wlhigh)) = numCols pm.phase
    rcases Nat.eq_zero_or_pos (numRows pm.phase) with h0 | h0
    · have hnil : pm.phase = [] := List.length_eq_zero.mp h0
      rw [hnil]
      rfl
    · have hlen : (bandreject_filter pm.phase d wllow wlhigh).length = numRows pm.phase :=
        bandreject_filter_length pm.phase d wllow wlhigh
      rw [numCols, headD_eq_getD, row_setNaN pm.phase _ 0 h0 (by omega)]
      rw [List.length_zipWith]
      have h1 : (pm.phase.getD 0 []).length = numCols pm.phase :=
        hrect _ (getD_mem pm.phase 0 [] h0)
      have h2 : ((bandreject_filter pm.phase d wllow wlhigh).getD 0 []).length
          = numCols pm.phase := by
        rw [bandreject_filter_eq_ofFun, row_ofFun _ _ _ 0 h0, List.length_map,
          List.length_range]
      rw [h1, h2, min_self]
  · intro i hi j hj
    have hleno : i < pm.phase.length := hi
    have hlenn : i < (bandreject_filter pm.phase d wllow wlhigh).length := by
      rw [bandreject_filter_length]
      exact hi
    have hrowo : j < (pm.phase.getD i []).length := by
      rw [hrect _ (getD_mem pm.phase i [] hleno)]
      exact hj
    have hrown : j < ((bandreject_filter pm.phase d wllow wlhigh).getD i []).length := by
      rw [bandreject_filter_eq_ofFun, row_ofFun _ _ _ i hi, List.length_map, List.length_range]
      exact hj
    show isfiniteV (entry (setNaN pm.phase (bandreject_filter pm.phase d wllow wlhigh)) i j) = _
    rw [entry_setNaN pm.phase _ i j hleno hlenn hrowo hrown]
    cases hfin : isfiniteV (entry pm.phase i j) with
    | false =>
        rw [if_neg (by simp)]
        rfl
    | true =>
        rw [if_pos rfl, bandreject_filter_entry pm.phase d wllow wlhigh i j hi hj]
        rfl

lemma ofFun_one_two (f : ℕ → ℕ → ℝ) : ofFun 1 2 f = [[some (f 0 0), some (f 0 1)]] := by
  simp [ofFun, List.range_succ]

lemma filter_ce (c : ℝ) :
    bandreject_filter [[none, some c]] 1 1 2 = [[some (-(c / 2)), some (c / 2)]] := by
  rw [bandreject_filter_eq_ofFun]
  have h1 : numRows [[(none : Val), some c]] = 1 := rfl
  have h2 : numCols [[(none : Val), some c]] = 2 := rfl
  rw [h1, h2, ofFun_one_two, (brOut_ce c).1, (brOut_ce c).2]
  simp

lemma setNaN_ce (v a b : ℝ) :
    setNaN [[none, some v]] [[some a, some b]] = [[none, some b]] := rfl

/-- **C7, counterexample.**  On the 1 × 2 grid `[nan, 1]` with sample
spacing 1 and cutoffs `wllow = 1`, `wlhigh = 2`, one `bandreject` yields
the phase `[nan, 1/2]` but two identical calls yield `[nan, 1/4]`: the
claimed unconditional idempotence is false when invalid samples are
present, because each pass zero-fills the invalid position anew. -/
theorem claim_C7_counterexample :
    ((pmC7ce.bandreject 1 2).bind (fun p => p.bandreject 1 2)).map Interferogram.phase
      ≠ (pmC7ce.bandreject 1 2).map Interferogram.phase := by
  have hph1 : setNaN pmC7ce.phase (bandreject_filter pmC7ce.phase 1 1 2)
      = [[none, some ((1 : ℝ) / 2)]] := by
    show setNaN [[none, some (1 : ℝ)]] (bandreject_filter [[none, some (1 : ℝ)]] 1 1 2) = _
    rw [filter_ce 1, setNaN_ce]
  have h1 : pmC7ce.bandreject 1 2
      = Except.ok { pmC7ce with phase := [[none, some ((1 : ℝ) / 2)]] } := by
    rw [Interferogram.bandreject_ok pmC7ce 1 1 2 rfl, hph1]
  have hph2 : setNaN ({ pmC7ce with phase := [[none, some ((1 : ℝ) / 2)]] } :
        Interferogram).phase
      (bandreject_filter ({ pmC7ce with phase := [[none, some ((1 : ℝ) / 2)]] } :
        Interferogram).phase 1 1 2)
      = [[none, some ((1 : ℝ) / 2 / 2)]] := by
    show setNaN [[none, some ((1 : ℝ) / 2)]]
        (bandreject_filter [[none, some ((1 : ℝ) / 2)]] 1 1 2) = _
    rw [filter_ce ((1 : ℝ) / 2), setNaN_ce]
  have h2 : ({ pmC7ce with phase := [[none, some ((1 : ℝ) / 2)]] } : Interferogram).bandreject 1 2
      = Except.ok { pmC7ce with phase := [[none, some ((1 : ℝ) / 2 / 2)]] } := by
    rw [Interferogram.bandreject_ok _ 1 1 2 rfl, hph2]
  rw [h1]
  show (Except.bind _ _).map _ ≠ _
  simp only [Except.bind]
  rw [h2]
  intro hcon
  simp only [Except.map, Except.ok.injEq, List.cons.injEq, Option.some.injEq, and_true] at hcon
  norm_num at hcon

/-- **C7, amended.**  On a rectangular grid with no invalid samples,
invoking `bandreject` twice with identical cutoffs produces the same
result as invoking it once (the masked bins are already zero, the
inverse transform of the symmetric masked spectrum is real, and no
zero-filling perturbs the second pass). -/
theorem claim_C7_amended_idempotent_on_all_finite (pm : Interferogram) (d wllow wlhigh : ℝ)
    (hd : pm.sample_spacing = some d) (hfin : AllFinite pm.phase) (hrect : IsRect pm.phase) :
    (pm.bandreject wllow wlhigh).bind (fun p => p.bandreject wllow wlhigh)
      = pm.bandreject wllow wlhigh := by
  have hset : setNaN pm.phase (bandreject_filter pm.phase d wllow wlhigh)
      = bandreject_filter pm.phase d wllow wlhigh := by
    apply setNaN_eq_of_allFinite pm.phase _ hfin
    · rw [bandreject_filter_length]
      rfl
    · intro i hi
      have h1 : (pm.phase.getD i []).length = numCols pm.phase :=
        hrect _ (getD_mem pm.phase i [] hi)
      have h2 : ((bandreject_filter pm.phase d wllow wlhigh).getD i []).length
          = numCols pm.phase := by
        rw [bandreject_filter_eq_ofFun,
          row_ofFun (numRows pm.phase) (numCols pm.phase) _ i hi, List.length_map,
          List.length_range]
      rw [h1, h2]
  rw [Interferogram.bandreject_ok pm d wllow wlhigh hd, hset]
  show Except.bind _ _ = _
  simp only [Except.bind]
  have hph : setNaN ({ pm with phase := bandreject_filter pm.phase d wllow wlhigh } :
        Interferogram).phase
      (bandreject_filter ({ pm with phase := bandreject_filter pm.phase d wllow wlhigh } :
        Interferogram).phase d wllow wlhigh)
      = bandreject_filter pm.phase d wllow wlhigh := by
    show setNaN (bandreject_filter pm.phase d wllow wlhigh)
        (bandreject_filter (bandreject_filter pm.phase d wllow wlhigh) d wllow wlhigh) = _
    rw [bandreject_filter_idem]
    exact setNaN_eq_of_allFinite _ _ (bandreject_filter_allFinite _ _ _ _) rfl (fun i _ => rfl)
  rw [Interferogram.bandreject_ok
    { pm with phase := bandreject_filter pm.phase d wllow wlhigh } d wllow wlhigh hd, hph]

/-- Witness for the amended C7 on a concrete all-finite instance. -/
theorem claim_C7_amended_witness :
    pmC7w.sample_spacing = some 1 ∧ AllFinite pmC7w.phase ∧ IsRect pmC7w.phase ∧
      (pmC7w.bandreject 1 2).bind (fun p => p.bandreject 1 2) = pmC7w.bandreject 1 2 :=
  ⟨rfl, by decide, by decide,
    claim_C7_amended_idempotent_on_all_finite pmC7w 1 1 2 rfl (by decide) (by decide)⟩

/-- Witness for C6 on a concrete 1 × 1 physical-mode instance. -/
theorem claim_C6_witness :
    pmC6w.sample_spacing = some 1 ∧ IsRect pmC6w.phase ∧
      (∃ pm', pmC6w.bandreject 1 2 = Except.ok pm' ∧
        numRows pm'.phase = numRows pmC6w.phase ∧
        numCols pm'.phase = numCols pmC6w.phase ∧
        (∀ i, i < numRows pmC6w.phase → ∀ j, j < numCols pmC6w.phase →
          isfiniteV (entry pm'.phase i j) = isfiniteV (entry pmC6w.phase i j))) :=
  ⟨rfl, by decide, claim_C6_bandreject_preserves_invalid_set pmC6w 1 1 2 rfl (by decide)⟩

/-- **C1 (code bug).**  `crop()` does truncate the 5 × 5
border-invalid grid to its interior 3 × 3 block, exactly as the spec's
scenario demands; but when the finite region extends to the last row and
last column (no trailing invalid row/column), the slice `phase[left:-0]`
is `phase[left:0]`, i.e. empty: `crop()` silently returns an empty grid
instead of the tightest bounding box. -/
theorem claim_C1_crop_works_interior_but_empties_at_boundary :
    cropGrid g5interior
        = [[some 1, some 2, some 3], [some 4, some 5, some 6], [some 7, some 8, some 9]] ∧
      cropGrid g5touch = [] :=
  ⟨rfl, rfl⟩

/-- **C3 (code bug).**  Neither degeneracy is surfaced: cropping a grid
with no finite sample silently yields the empty grid (the bounding box
collapses but no error is raised), and `fit_plane` on a grid with zero
finite samples silently returns the all-zero plane produced by the
degenerate least-squares system instead of signalling a numerical
failure. -/
theorem claim_C3_degeneracies_are_silent :
    cropGrid g2inv = [] ∧
      fit_plane [0, 1] [0, 1] g2inv = [[0, 0], [0, 0]] := by
  constructor
  · rfl
  · have hs : planeSamples [0, 1] [0, 1] g2inv = [] := rfl
    rw [fit_plane, hs]
    have hl : lstsq3 [] = (0, 0, 0) := by
      simp [lstsq3]
    rw [hl]
    norm_num

lemma length_arange (n : ℕ) : (arange n).length = n := by
  rw [arange, List.length_map, List.length_range]

lemma numCols_map_rows (f : Val → Val) (g : Grid) :
    numCols (g.map (List.map f)) = numCols g := by
  cases g <;> simp [numCols]

lemma subGridReal_length (g : Grid) (p : List (List ℝ)) (h : g.length ≤ p.length) :
    (subGridReal g p).length = g.length := by
  rw [subGridReal, List.length_zipWith]
  omega

lemma subGridReal_numCols (g : Grid) (p : List (List ℝ))
    (h : numCols g ≤ (p.headD []).length) :
    numCols (subGridReal g p) = numCols g ∨ g = [] ∨ p = [] := by
  cases g with
  | nil => right; left; rfl
  | cons r rs =>
      cases p with
      | nil => right; right; rfl
      | cons q qs =>
          left
          simp only [subGridReal, List.zipWith_cons_cons, numCols, List.headD_cons,
            List.length_zipWith]
          simp only [numCols, List.headD_cons] at h
          omega

lemma headD_map {α β : Type} (f : α → β) (l : List α) (d : β) (hd : l ≠ []) (d' : α) :
    (List.map f l).headD d = f (l.headD d') := by
  cases l
  · exact absurd rfl hd
  · rfl

lemma setNaN_filter_shape (g : Grid) (d wllow wlhigh : ℝ) (hrect : IsRect g) :
    numRows (setNaN g (bandreject_filter g d wllow wlhigh)) = numRows g ∧
      numCols (setNaN g (bandreject_filter g d wllow wlhigh)) = numCols g := by
  constructor
  · rw [numRows, length_setNaN, bandreject_filter_length]
    exact min_self _
  · rcases Nat.eq_zero_or_pos (numRows g) with h0 | h0
    · have hnil : g = [] := List.length_eq_zero.mp h0
      rw [hnil]
      rfl
    · rw [numCols, headD_eq_getD,
        row_setNaN g _ 0 h0 (by rw [bandreject_filter_length]; exact h0),
        List.length_zipWith]
      have h1 : (g.getD 0 []).length = numCols g := hrect _ (getD_mem g 0 [] h0)
      have h2 : ((bandreject_filter g d wllow wlhigh).getD 0 []).length = numCols g := by
        rw [bandreject_filter_eq_ofFun, row_ofFun (numRows g) (numCols g) _ 0 h0,
          List.length_map, List.length_range]
      rw [h1, h2, min_self]

lemma remove_tiptilt_shape (pm : Interferogram)
    (hx : pm.x.length = numCols pm.phase) (hy : pm.y.length = numRows pm.phase) :
    numRows pm.remove_tiptilt.phase = numRows pm.phase ∧
      numCols pm.remove_tiptilt.phase = numCols pm.phase := by
  have hplane : fit_plane pm.x pm.y pm.phase
      = pm.y.map (fun yi => pm.x.map (fun xj =>
          (lstsq3 (planeSamples pm.x pm.y pm.phase)).1 * xj +
          (lstsq3 (planeSamples pm.x pm.y pm.phase)).2.1 * yi +
          (lstsq3 (planeSamples pm.x pm.y pm.phase)).2.2)) := rfl
  have hplen : (fit_plane pm.x pm.y pm.phase).length = numRows pm.phase := by
    rw [hplane, List.length_map, hy]
  have hphead : numCols pm.phase ≤ ((fit_plane pm.x pm.y pm.phase).headD []).length := by
    rcases List.eq_nil_or_concat pm.y with hyl | _
    · have h0 : pm.phase.length = 0 := by
        have := hy
        rw [hyl] at this
        simpa [numRows] using this.symm
      have hnil : pm.phase = [] := List.length_eq_zero.mp h0
      rw [hnil]
      exact Nat.zero_le _
    · have hne : pm.y ≠ [] := by
        rename_i hcat
        obtain ⟨l, a, hcat⟩ := hcat
        rw [hcat]
        simp
      rw [hplane, headD_map _ pm.y _ hne 0, List.length_map, hx]
  constructor
  · show (subGridReal pm.phase (fit_plane pm.x pm.y pm.phase)).length = numRows pm.phase
    rw [subGridReal_length _ _ (le_of_eq hplen.symm)]
    rfl
  · show numCols (subGridReal pm.phase (fit_plane pm.x pm.y pm.phase)) = numCols pm.phase
    rcases subGridReal_numCols pm.phase (fit_plane pm.x pm.y pm.phase) hphead with h | h | h
    · exact h
    · rw [h]
      rfl
    · have hy0 : pm.y = [] := by
        rw [hplane] at h
        exact List.map_eq_nil_iff.mp h
      have h0 : pm.phase.length = 0 := by
        have := hy
        rw [hy0] at this
        simpa [numRows] using this.symm
      have hnil : pm.phase = [] := List.length_eq_zero.mp h0
      rw [hnil]
      rfl

/-- **C4, counterexample.**  The axes/grid invariant breaks after
`crop`: on a synthetic 5 × 5 interferogram whose border is invalid,
`crop` shrinks `phase` to 3 × 3 but leaves the 5-element `x` and `y`
axes untouched, so `len(x) ≠ phase.shape[1]` afterwards. -/
theorem claim_C4_counterexample :
    (Interferogram.init g5interior none none "um").map
        (fun pm => (pm.crop.x.length, numCols pm.crop.phase, pm.crop.y.length,
          numRows pm.crop.phase))
      = Except.ok (5, 3, 5, 3) ∧ (5 : ℕ) ≠ 3 :=
  ⟨rfl, by decide⟩

/-- **C4, amended.**  The coordinate axes match the grid after
construction (synthetic mode builds them from the grid shape) and after
each of `remove_piston`, `remove_tiptilt`, `remove_piston_tiptilt` and
`bandreject`, provided they matched before; `crop` is the exception: it
shrinks `phase` without updating `x`/`y` (see the counterexample). -/
theorem claim_C4_amended_axes_match_except_crop (pm : Interferogram)
    (hx : pm.x.length = numCols pm.phase) (hy : pm.y.length = numRows pm.phase)
    (hrect : IsRect pm.phase) :
    (∀ (g : Grid) (intens : Option Grid) (s : String), ∃ pm0,
        Interferogram.init g intens none s = Except.ok pm0 ∧
        pm0.x.length = numCols pm0.phase ∧ pm0.y.length = numRows pm0.phase) ∧
    (pm.remove_piston.x.length = numCols pm.remove_piston.phase ∧
      pm.remove_piston.y.length = numRows pm.remove_piston.phase) ∧
    (pm.remove_tiptilt.x.length = numCols pm.remove_tiptilt.phase ∧
      pm.remove_tiptilt.y.length = numRows pm.remove_tiptilt.phase) ∧
    (pm.remove_piston_tiptilt.x.length = numCols pm.remove_piston_tiptilt.phase ∧
      pm.remove_piston_tiptilt.y.length = numRows pm.remove_piston_tiptilt.phase) ∧
    (∀ (wllow wlhigh : ℝ) (pm' : Interferogram),
      pm.bandreject wllow wlhigh = Except.ok pm' →
      pm'.x.length = numCols pm'.phase ∧ pm'.y.length = numRows pm'.phase) := by
  have hpiston : ∀ (q : Interferogram), q.x.length = numCols q.phase →
      q.y.length = numRows q.phase →
      q.remove_piston.x.length = numCols q.remove_piston.phase ∧
        q.remove_piston.y.length = numRows q.remove_piston.phase := by
    intro q hqx hqy
    constructor
    · show q.x.length = numCols (q.phase.map (List.map _))
      rw [numCols_map_rows]
      exact hqx
    · show q.y.length = numRows (q.phase.map (List.map _))
      rw [numRows, List.length_map]
      exact hqy
  have htt := remove_tiptilt_shape pm hx hy
  refine ⟨?_, hpiston pm hx hy, ⟨?_, ?_⟩, ?_, ?_⟩
  · intro g intens s
    refine ⟨_, rfl, ?_, ?_⟩
    · exact length_arange (numCols g)
    · exact length_arange (numRows g)
  · rw [htt.2]
    exact hx
  · rw [htt.1]
    exact hy
  · have h1 : pm.remove_tiptilt.x.length = numCols pm.remove_tiptilt.phase := by
      rw [htt.2]
      exact hx
    have h2 : pm.remove_tiptilt.y.length = numRows pm.remove_tiptilt.phase := by
      rw [htt.1]
      exact hy
    exact hpiston pm.remove_tiptilt h1 h2
  · intro wllow wlhigh pm' h
    cases hss : pm.sample_spacing with
    | none =>
        rw [Interferogram.bandreject, hss] at h
        exact absurd h (by simp)
    | some d =>
        rw [Interferogram.bandreject_ok pm d wllow wlhigh hss] at h
        have hpm' : pm' = { pm with
            phase := setNaN pm.phase (bandreject_filter pm.phase d wllow wlhigh) } :=
          (Except.ok.injEq _ _ ▸ h.symm :)
        subst hpm'
        have hsh := setNaN_filter_shape pm.phase d wllow wlhigh hrect
        constructor
        · show pm.x.length = numCols (setNaN pm.phase _)
          rw [hsh.2]
          exact hx
        · show pm.y.length = numRows (setNaN pm.phase _)
          rw [hsh.1]
          exact hy

/-- Witness for the amended C4 on a concrete 1 × 1 instance. -/
theorem claim_C4_amended_witness :
    pmC4w.x.length = numCols pmC4w.phase ∧ pmC4w.y.length = numRows pmC4w.phase ∧
      IsRect pmC4w.phase ∧
      (pmC4w.remove_piston.x.length = numCols pmC4w.remove_piston.phase ∧
        pmC4w.remove_piston.y.length = numRows pmC4w.remove_piston.phase) :=
  ⟨rfl, rfl, by decide,
    (claim_C4_amended_axes_match_except_crop pmC4w rfl rfl (by decide)).2.1⟩

/-- **C5, counterexample.**  `dropout_percentage` is not constant under
cropping: the 5 × 5 border-invalid grid has 16 invalid samples out of
25 (64 %), while the cropped 3 × 3 interior is all finite (0 %). -/
theorem claim_C5_counterexample :
    pmC5ce.dropout_percentage = 64 ∧ pmC5ce.crop.dropout_percentage = 0 ∧ (64 : ℝ) ≠ 0 := by
  refine ⟨?_, ?_, by norm_num⟩
  · show (countNonFinite pmC5ce.phase : ℝ) / (gridSize pmC5ce.phase : ℝ) * 100 = 64
    rw [show countNonFinite pmC5ce.phase = 16 from rfl,
      show gridSize pmC5ce.phase = 25 from rfl]
    norm_num
  · show (countNonFinite pmC5ce.crop.phase : ℝ) / (gridSize pmC5ce.crop.phase : ℝ) * 100 = 0
    rw [show countNonFinite pmC5ce.crop.phase = 0 from rfl,
      show gridSize pmC5ce.crop.phase = 9 from rfl]
    norm_num

/-- **C5, amended.**  For every nonempty grid, `dropout_percentage`
equals exactly `100 · (non-finite count) / (total count)` recomputed
from the current grid — 0 for an all-finite grid and 100 for an
all-invalid grid.  Because it is recomputed rather than cached, its
value generally changes when `crop` removes invalid samples (see the
counterexample). -/
theorem claim_C5_amended_dropout_formula (pm : Interferogram)
    (h : 0 < gridSize pm.phase) :
    pm.dropout_percentage
        = 100 * (countNonFinite pm.phase : ℝ) / (gridSize pm.phase : ℝ) ∧
      (AllFinite pm.phase → pm.dropout_percentage = 0) ∧
      (AllInvalid pm.phase → pm.dropout_percentage = 100) := by
  refine ⟨?_, ?_, ?_⟩
  · rw [Interferogram.dropout_percentage]
    ring
  · intro hfin
    rw [Interferogram.dropout_percentage]
    have hc : countNonFinite pm.phase = 0 := by
      rw [countNonFinite, List.length_eq_zero]
      rw [List.filter_eq_nil_iff]
      intro v hv
      rw [hfin v hv]
      simp
    rw [hc]
    norm_num
  · intro hinv
    rw [Interferogram.dropout_percentage]
    have hc : countNonFinite pm.phase = gridSize pm.phase := by
      rw [countNonFinite, gridSize]
      congr 1
      rw [List.filter_eq_self]
      intro v hv
      rw [hinv v hv]
      rfl
    rw [hc]
    have hs : ((gridSize pm.phase : ℝ)) ≠ 0 := by
      exact_mod_cast Nat.pos_iff_ne_zero.mp h
    field_simp

/-- Witness for the amended C5 on a concrete 1 × 2 grid. -/
theorem claim_C5_amended_witness :
    0 < gridSize pmC5w.phase ∧
      pmC5w.dropout_percentage
        = 100 * (countNonFinite pmC5w.phase : ℝ) / (gridSize pmC5w.phase : ℝ) :=
  ⟨by decide, (claim_C5_amended_dropout_formula pmC5w (by decide)).1⟩

/-- **C8, counterexample.**  Constructing an `Interferogram` with the
unrecognized scale `"xx"` does **not** fail: the constructor stores the
value unvalidated, and only the later `scale_map` lookup comes back
empty (the deferred `KeyError`). -/
theorem claim_C8_counterexample :
    (Interferogram.init [[some 0]] none none "xx").map Interferogram.scale
        = Except.ok "xx" ∧
      scaleMapLookup "xx" = none :=
  ⟨rfl, rfl⟩

/-- **C8, amended.**  `__init__` performs no validation of `scale`:
construction succeeds for every scale string and stores it as given;
an unrecognized scale only fails later, at the point a lookup consults
the `scale_map` table (`from_zygo_dat`) or the label table (`plot2d`). -/
theorem claim_C8_amended_scale_error_deferred (g : Grid) (intens : Option Grid) (s : String)
    (h1 : s ≠ "um") (h2 : s ≠ "mm") :
    (∃ pm, Interferogram.init g intens none s = Except.ok pm ∧ pm.scale = s) ∧
      scaleMapLookup s = none := by
  refine ⟨⟨_, rfl, rfl⟩, ?_⟩
  have hb1 : (s == "um") = false := beq_eq_false_iff_ne.mpr h1
  have hb2 : (s == "mm") = false := beq_eq_false_iff_ne.mpr h2
  simp [scaleMapLookup, scale_map, List.lookup, hb1, hb2]

/-- Witness for the amended C8 at the concrete scale `"xx"`. -/
theorem claim_C8_amended_witness :
    ("xx" : String) ≠ "um" ∧ ("xx" : String) ≠ "mm" ∧
      ((∃ pm, Interferogram.init [[(none : Val)]] none none "xx" = Except.ok pm ∧
          pm.scale = "xx") ∧
        scaleMapLookup "xx" = none) :=
  ⟨by decide, by decide,
    claim_C8_amended_scale_error_deferred [[none]] none "xx" (by decide) (by decide)⟩

/-- **C9.**  A synthetic-mode `Interferogram` (no physical coordinates
supplied) never assigns `sample_spacing`; calling `bandreject` on it
always fails with the `AttributeError` of the unset attribute. -/
theorem claim_C9_synthetic_bandreject_raises (g : Grid) (intens : Option Grid) (s : String)
    (wllow wlhigh : ℝ) :
    (Interferogram.init g intens none s).bind (fun pm => pm.bandreject wllow wlhigh)
      = Except.error
          "AttributeError: 'Interferogram' object has no attribute 'sample_spacing'" := rfl

/-- **C10.**  On a grid with no finite samples, `remove_piston`
completes without raising: the mean over the empty finite selection is
NaN, and subtracting it leaves every sample non-finite. -/
theorem claim_C10_remove_piston_all_invalid (pm : Interferogram)
    (h : AllInvalid pm.phase) :
    meanVal (finiteVals pm.phase) = none ∧ AllInvalid pm.remove_piston.phase := by
  constructor
  · have hfv : finiteVals pm.phase = [] := by
      rw [finiteVals, List.filterMap_eq_nil_iff]
      intro v hv
      rw [h v hv]
      rfl
    rw [hfv, meanVal]
    simp
  · intro v hv
    simp only [Interferogram.remove_piston, List.mem_flatten, List.mem_map] at hv
    obtain ⟨r, ⟨r0, hr0, rfl⟩, hv⟩ := hv
    rw [List.mem_map] at hv
    obtain ⟨v0, hv0, rfl⟩ := hv
    have hv0n : v0 = none := h v0 (List.mem_flatten.mpr ⟨r0, hr0, hv0⟩)
    rw [hv0n]
    rfl

/-- Witness for C10 on a concrete all-invalid 1 × 1 grid. -/
theorem claim_C10_witness :
    AllInvalid pmC10w.phase ∧
      (meanVal (finiteVals pmC10w.phase) = none ∧ AllInvalid pmC10w.remove_piston.phase) :=
  ⟨by decide, claim_C10_remove_piston_all_invalid pmC10w (by decide)⟩
